import Mathlib

/-!
# SPIFFS circular queue (`Logger`): embedding and verification

Shallow embedding of `src/src/SPIFFS_Logger.cpp` and `src/src/SPIFFS_Logger.h`.

* The four `long` members of `Logger` are integers; every arithmetic step is
  wrapped to the 32-bit two's complement range of `long` on the target
  (`wrapLong`).
* The backing file is a byte list with a cursor and an "open" flag; its
  operations (`seek`, `write`, `read`, `printf`, `readStringUntil`) are
  modelled from the collaborator contract of the specification.
* `enqueue`, `dequeue`, `store`, `recall`, the constructor and the destructor
  follow the source statement by statement.
-/

namespace SpiffsLogger

/-! ## Machine integers and bytes -/

/-- One `uint8_t`. -/
abbrev Byte := Fin 256

/-- Smallest value of the C type `long` (32 bits on the target). -/
def LONG_MIN : Int := -2147483648

/-- Largest value of the C type `long` (32 bits on the target). -/
def LONG_MAX : Int := 2147483647

/-- Result of a `long` computation: the mathematical value reduced to the
32-bit two's complement range. -/
def wrapLong (x : Int) : Int := (x + 2147483648) % 4294967296 - 2147483648

/-- Conversion of a `long` to an unsigned 32-bit count or offset (`size_t`,
`uint32_t`). -/
def toSizeT (x : Int) : Nat := (x % 4294967296).toNat

/-- Conversion `(uint8_t)ret_byte` of an `int`. -/
def toUInt8 (x : Int) : Byte := ⟨(x % 256).toNat, by omega⟩

/-! ## Backing file -/

/-- Modelled from the spec: the backing-store handle (`File` of the Arduino
`FS` library, not part of the sources): the bytes of the file, the cursor, and
whether the handle was opened successfully. -/
structure File where
  content : List Byte
  pos : Nat
  isOpen : Bool
deriving DecidableEq

/-- Bytes `c` with `bs` written over them from offset `p` on (the file grows
when the write runs past its end). -/
def writeAt (c : List Byte) (p : Nat) (bs : List Byte) : List Byte :=
  c.take p ++ bs ++ c.drop (p + bs.length)

/-- Modelled from the spec: `Handle.seek(offset, origin=absolute-start) -> bool`.
The offset parameter is an unsigned 32-bit value; a seek on a closed handle or
past the end of the file fails and leaves the cursor where it was. -/
def File.seek (f : File) (off : Int) : File × Bool :=
  if f.isOpen = true ∧ toSizeT off ≤ f.content.length then
    ({ f with pos := toSizeT off }, true)
  else (f, false)

/-- Modelled from the spec: `Handle.write(bytes, len) -> bytes_written`. The
first `n` bytes of `buf` are written at the cursor, which advances past them;
a closed handle writes nothing. -/
def File.write (f : File) (buf : List Byte) (n : Nat) : File × Int :=
  if f.isOpen = true then
    ({ f with content := writeAt f.content f.pos (buf.take n),
              pos := f.pos + (buf.take n).length },
     ((buf.take n).length : Int))
  else (f, 0)

/-- Modelled from the spec: `Handle.read_byte() -> byte | end-of-stream`
(`File::read()`, which answers `-1` at the end of the file or on a closed
handle). -/
def File.read (f : File) : File × Int :=
  if f.isOpen = true then
    match f.content[f.pos]? with
    | some b => ({ f with pos := f.pos + 1 }, (b.val : Int))
    | none => (f, -1)
  else (f, -1)

/-- Modelled from the spec: `Handle.write_text(string)` (`print`, `printf`):
the text is written at the cursor. -/
def File.printText (f : File) (text : List Byte) : File :=
  (f.write text text.length).1

/-- The filler loop of the constructor: `n` calls of `print(" ")`. -/
def File.printSpaces : Nat → File → File
  | 0, f => f
  | n + 1, f => File.printSpaces n (File.printText f [32])

/-! ## Text of the header record -/

/-- ASCII code of the decimal digit `d % 10`. -/
def digitChar (d : Nat) : Byte := ⟨48 + d % 10, by omega⟩

/-- Decimal digits of `n`, most significant first, no leading zero;
`fuel` bounds the number of digits after the first. -/
def natDigits : Nat → Nat → List Byte
  | 0, n => [digitChar n]
  | fuel + 1, n =>
    if n < 10 then [digitChar n] else natDigits fuel (n / 10) ++ [digitChar (n % 10)]

/-- Modelled from the spec: a header field is written as a decimal integer
(the `printf` conversion `%ld`): a minus sign for a negative value, then the
digits without leading zeros. -/
def fmtLong (x : Int) : List Byte :=
  if x < 0 then 45 :: natDigits x.natAbs x.natAbs else natDigits x.natAbs x.natAbs

/-- Text produced by `printf("%ld|%ld|%ld|%ld|\r\n", a, b, c, d)`. -/
def fmtHeader (a b c d : Int) : List Byte :=
  fmtLong a ++ [124] ++ fmtLong b ++ [124] ++ fmtLong c ++ [124] ++ fmtLong d ++ [124, 13, 10]

/-- Bytes in front of the first `term` in `bs`, and how many bytes were
consumed (the terminator is consumed, too, when there is one). -/
def splitUntil (term : Byte) : List Byte → List Byte × Nat
  | [] => ([], 0)
  | b :: rest =>
    if b = term then ([], 1)
    else ((b :: (splitUntil term rest).1), (splitUntil term rest).2 + 1)

/-- Modelled from the spec: `Stream::readStringUntil(term)`: the bytes from the
cursor up to the terminator (consumed, not returned) or the end of the file. -/
def File.readStringUntil (f : File) (term : Byte) : File × List Byte :=
  if f.isOpen = true then
    ({ f with pos := f.pos + (splitUntil term (f.content.drop f.pos)).2 },
     (splitUntil term (f.content.drop f.pos)).1)
  else (f, [])

/-- Whether `b` is white space for `atol`. -/
def isSpace (b : Byte) : Bool := b = 32 || (9 ≤ b.val && b.val ≤ 13)

/-- Whether `b` is a decimal digit. -/
def isDigit (b : Byte) : Bool := 48 ≤ b.val && b.val ≤ 57

/-- Value of the leading decimal digits of `bs`, continuing from `acc`. -/
def parseDigits : Nat → List Byte → Nat
  | acc, [] => acc
  | acc, b :: rest => if isDigit b then parseDigits (acc * 10 + (b.val - 48)) rest else acc

/-- A value outside the range of `long` is replaced by the nearest bound. -/
def clampLong (x : Int) : Int :=
  if x < LONG_MIN then LONG_MIN else if LONG_MAX < x then LONG_MAX else x

/-- Modelled from the spec: `String::toInt()` (`atol`): leading white space, an
optional sign, then decimal digits up to the first other byte; `0` when there
is no digit. -/
def toInt (s : List Byte) : Int :=
  match s.dropWhile isSpace with
  | [] => 0
  | c :: rest =>
    if c = 45 then clampLong (-(parseDigits 0 rest : Int))
    else if c = 43 then clampLong (parseDigits 0 rest : Int)
    else clampLong (parseDigits 0 (c :: rest) : Int)

/-! ## The `Logger` class -/

/-- Data members of `Logger`. -/
structure Logger where
  file_buffer : File
  head_index : Int
  tail_index : Int
  file_size : Int
  pos_free : Int
deriving DecidableEq

/-- The inline `jump_header()`: byte size of the header. -/
def jump_header : Int := 64

/-- The inline `is_empty()`. -/
def Logger.is_empty (s : Logger) : Bool := s.head_index = s.tail_index

/-- The inline `is_full()`. -/
def Logger.is_full (s : Logger) : Bool := s.pos_free = 0

/-- The inline `num_items()`. -/
def Logger.num_items (s : Logger) : Int :=
  wrapLong (wrapLong (s.file_size - s.pos_free) - jump_header)

/-- The inline `free_space()`. -/
def Logger.free_space (s : Logger) : Int := s.pos_free

/-- `Logger::store()`: seek to offset 0 and print the header record. -/
def Logger.store (s : Logger) : Logger :=
  let f0 := (s.file_buffer.seek 0).1
  { s with file_buffer :=
             f0.printText (fmtHeader s.head_index s.tail_index s.file_size s.pos_free) }

/-- `Logger::recall()`: seek to offset 0 and read the four fields, each up to
the next `'|'`. -/
def Logger.recall (s : Logger) : Logger :=
  let f0 := (s.file_buffer.seek 0).1
  let r1 := f0.readStringUntil 124
  let r2 := r1.1.readStringUntil 124
  let r3 := r2.1.readStringUntil 124
  let r4 := r3.1.readStringUntil 124
  { file_buffer := r4.1,
    head_index := toInt r1.2,
    tail_index := toInt r2.2,
    file_size := toInt r3.2,
    pos_free := toInt r4.2 }

/-- `Logger::enqueue(const uint8_t *data, long len)`; `data` is the array the
pointer refers to. -/
def Logger.enqueue (s : Logger) (data : List Byte) (len : Int) : Logger × Bool :=
  if s.pos_free ≥ len then
    let f1 := (s.file_buffer.seek s.head_index).1
    let s2 : Logger :=
      if wrapLong (s.file_size - s.head_index) ≥ len then
        let w := f1.write data (toSizeT len)
        { s with file_buffer := w.1, head_index := wrapLong (s.head_index + len) }
      else
        let f2 := (f1.seek s.head_index).1
        let w := f2.write data (toSizeT (wrapLong (s.file_size - s.head_index)))
        let done := w.2
        let f3 := (w.1.seek jump_header).1
        let w2 := f3.write (data.drop done.toNat) (toSizeT (wrapLong (len - done)))
        { s with file_buffer := w2.1, head_index := jump_header }
    let s3 : Logger := { s2 with pos_free := wrapLong (s2.pos_free - len) }
    (s3.store, true)
  else (s, false)

/-- The loop `while (len--) { ... }` of `dequeue`, for `n` remaining
iterations; `data` is the array the output pointer refers to (every byte is
stored through `*data`, the pointer is not advanced). -/
def dequeueLoop : Nat → Logger → List Byte → Logger × List Byte × Bool
  | 0, s, data => (s, data, true)
  | n + 1, s, data =>
    let s1 : Logger :=
      if s.tail_index = s.file_size then
        { s with tail_index := jump_header,
                 file_buffer := (s.file_buffer.seek jump_header).1 }
      else s
    let r := s1.file_buffer.read
    if r.2 = -1 then ({ s1 with file_buffer := r.1 }, data, false)
    else
      let s2 : Logger :=
        { s1 with file_buffer := r.1, pos_free := wrapLong (s1.pos_free + 1) }
      let s3 : Logger :=
        { s2 with tail_index :=
            if s2.tail_index = s2.file_size then jump_header
            else wrapLong (s2.tail_index + 1) }
      dequeueLoop n s3 (data.set 0 (toUInt8 r.2))

/-- `Logger::dequeue(uint8_t *data, long len)`: the new state, the array
`data` points to after the call, and the return value. `while (len--)` runs
until the 32-bit counter reaches zero. -/
def Logger.dequeue (s : Logger) (data : List Byte) (len : Int) :
    Logger × List Byte × Bool :=
  if s.num_items ≥ len then
    dequeueLoop (toSizeT len)
      { s with file_buffer := (s.file_buffer.seek s.tail_index).1 } data
  else (s, data, false)

/-- A handle that failed to open. -/
def closedFile : File := { content := [], pos := 0, isOpen := false }

/-- Modelled from the spec: `open(name, mode) -> Handle | failure` of the
file system: `stored` is the content of the named file when it exists, `ok`
whether the file system grants the open; mode `"w+"` starts from an empty
file. -/
def openFile (stored : Option (List Byte)) (ok : Bool) : File :=
  if ok = true then { content := stored.getD [], pos := 0, isOpen := true } else closedFile

/-- `Logger::Logger(const char *file_name, long len)`: `stored` is the content
of the named file when `SPIFFS.exists` answers true, `ok` whether
`SPIFFS.open` succeeds. -/
def Logger.new (stored : Option (List Byte)) (ok : Bool) (len : Int) : Logger :=
  let s0 : Logger :=
    { file_buffer := closedFile, head_index := 0, tail_index := 0,
      file_size := 0, pos_free := 0 }
  match stored with
  | some c =>
    let f := openFile (some c) ok
    if f.isOpen = false then { s0 with file_buffer := f }
    else Logger.recall { s0 with file_buffer := f }
  | none =>
    let f := openFile none ok
    if f.isOpen = false then { s0 with file_buffer := f }
    else
      let s1 : Logger :=
        { file_buffer := f, file_size := len, pos_free := wrapLong (len - jump_header),
          head_index := jump_header, tail_index := jump_header }
      Logger.store { s1 with file_buffer := File.printSpaces len.toNat s1.file_buffer }

/-- `Logger::~Logger()`: the header is stored and the file closed; the result
is the content the file keeps. -/
def Logger.destroy (s : Logger) : List Byte := s.store.file_buffer.content

/-- A store newly created by `Logger(name, total_size)`: the file did not
exist and was opened successfully. -/
def Logger.create (total_size : Int) : Logger := Logger.new none true total_size

/-- A `Logger` constructed on an existing file with content `c`. -/
def Logger.reopen (c : List Byte) (len : Int) : Logger := Logger.new (some c) true len

/-! ## Auxiliary definitions for the proofs -/

/-- The four members of `s` are values of the type `long`. -/
structure InRange (s : Logger) : Prop where
  head_lo : -2147483648 ≤ s.head_index
  head_hi : s.head_index ≤ 2147483647
  tail_lo : -2147483648 ≤ s.tail_index
  tail_hi : s.tail_index ≤ 2147483647
  size_lo : -2147483648 ≤ s.file_size
  size_hi : s.file_size ≤ 2147483647
  free_lo : -2147483648 ≤ s.pos_free
  free_hi : s.pos_free ≤ 2147483647

/-- What holds of every store between two calls: the handle is open, the file
is `file_size` bytes long, both indices lie in `[64, file_size]` and
`pos_free` in `[0, file_size - 64]`. -/
structure Inv (s : Logger) : Prop where
  isOpen : s.file_buffer.isOpen = true
  size_lo : 64 ≤ s.file_size
  size_hi : s.file_size ≤ 2147483647
  length_eq : (s.file_buffer.content.length : Int) = s.file_size
  head_lo : 64 ≤ s.head_index
  head_hi : s.head_index ≤ s.file_size
  tail_lo : 64 ≤ s.tail_index
  tail_hi : s.tail_index ≤ s.file_size
  free_lo : 0 ≤ s.pos_free
  free_hi : s.pos_free ≤ s.file_size - 64

/-- State of `enqueue` after a write that fits between `head_index` and the
end of the file, before the header is stored. -/
def enqueueSingle (s : Logger) (data : List Byte) (len : Int) : Logger :=
  { s with
    file_buffer :=
      { content := writeAt s.file_buffer.content s.head_index.toNat (data.take len.toNat),
        pos := s.head_index.toNat + (data.take len.toNat).length, isOpen := true },
    head_index := s.head_index + len,
    pos_free := s.pos_free - len }

/-- State of `enqueue` after a write in two segments, before the header is
stored. -/
def enqueueWrapped (s : Logger) (data : List Byte) (len : Int) : Logger :=
  let seg1 := data.take (s.file_size - s.head_index).toNat
  let seg2 := (data.drop seg1.length).take (len - seg1.length).toNat
  { s with
    file_buffer :=
      { content := writeAt (writeAt s.file_buffer.content s.head_index.toNat seg1) 64 seg2,
        pos := 64 + seg2.length, isOpen := true },
    head_index := 64,
    pos_free := s.pos_free - len }

/-- Offset from which the next iteration of the read loop takes its byte. -/
def readPos (s : Logger) : Nat :=
  if s.tail_index = s.file_size then 64 else s.tail_index.toNat

/-- State after one successful iteration of the read loop. -/
def afterRead (s : Logger) : Logger :=
  { s with
    file_buffer := { s.file_buffer with pos := readPos s + 1 },
    tail_index := (readPos s : Int) + 1,
    pos_free := s.pos_free + 1 }

/-- State handed to the read loop by a `dequeue` that passes its guard. -/
def afterSeek (s : Logger) : Logger :=
  { s with file_buffer := { s.file_buffer with pos := s.tail_index.toNat } }

/-- State of the constructor after the filler loop, before the header is
stored. -/
def reserved (total_size : Int) : Logger :=
  { file_buffer := { content := List.replicate total_size.toNat 32, pos := total_size.toNat,
                     isOpen := true },
    head_index := 64, tail_index := 64, file_size := total_size, pos_free := total_size - 64 }

/-! ## Call sequences -/

/-- One call of the public interface, with the array its pointer argument
refers to and its `len` argument. -/
inductive Op where
  | enqueue (data : List Byte) (len : Int)
  | dequeue (data : List Byte) (len : Int)
deriving DecidableEq

/-- The `len` argument of a call. -/
def Op.len : Op → Int
  | .enqueue _ len => len
  | .dequeue _ len => len

/-- State after one call. -/
def Logger.step (s : Logger) : Op → Logger
  | .enqueue data len => (s.enqueue data len).1
  | .dequeue data len => (s.dequeue data len).1

/-- State after a sequence of calls. -/
def Logger.run (s : Logger) (ops : List Op) : Logger := ops.foldl Logger.step s

/-- The calls `enqueue(&b, 1)` for the bytes `b` of `bs` in turn: the final
state and the return values. -/
def enqueueEach : Logger → List Byte → Logger × List Bool
  | s, [] => (s, [])
  | s, b :: bs =>
    ((enqueueEach (s.enqueue [b] 1).1 bs).1,
     (s.enqueue [b] 1).2 :: (enqueueEach (s.enqueue [b] 1).1 bs).2)

/-- The call `dequeue(out, 1)` made `n` times on a one-byte array that holds
`o` before each call: for every call the array after it and the return
value. -/
def dequeueEach : Nat → Logger → Byte → List (List Byte × Bool)
  | 0, _, _ => []
  | n + 1, s, o => (s.dequeue [o] 1).2 :: dequeueEach n (s.dequeue [o] 1).1 o

/-- A sequence of `dequeue(data, len)` calls: for every call the array after
it and the return value. -/
def dequeueAll : Logger → List (List Byte × Int) → List (List Byte × Bool)
  | _, [] => []
  | s, (data, len) :: rest =>
    (s.dequeue data len).2 :: dequeueAll (s.dequeue data len).1 rest

/-- Bytes accepted by the successful `enqueue` calls of a sequence, in call
order. -/
def accepted : Logger → List Op → List Byte
  | _, [] => []
  | s, .enqueue data len :: ops =>
    (if (s.enqueue data len).2 = true then data.take len.toNat else [])
      ++ accepted (s.enqueue data len).1 ops
  | s, .dequeue data len :: ops => accepted (s.dequeue data len).1 ops

/-- Bytes delivered by the successful `dequeue` calls of a sequence, in call
order: the first `len` bytes of the output array after each call. -/
def delivered : Logger → List Op → List Byte
  | _, [] => []
  | s, .enqueue data len :: ops => delivered (s.enqueue data len).1 ops
  | s, .dequeue data len :: ops =>
    (if (s.dequeue data len).2.2 = true then (s.dequeue data len).2.1.take len.toNat else [])
      ++ delivered (s.dequeue data len).1 ops

/-- Whether the call `op` in state `s` stays clear of the wraparound branch of
`enqueue`: an accepted `enqueue` fits between `head_index` and the end of the
file. -/
def fitsBeforeEnd (s : Logger) : Op → Bool
  | .enqueue _ len => decide (len ≤ s.pos_free → len ≤ s.file_size - s.head_index)
  | .dequeue _ _ => true

/-- No call of the sequence, made from `s` on, takes the wraparound branch of
`enqueue`. -/
def neverWraps : Logger → List Op → Bool
  | _, [] => true
  | s, op :: ops => fitsBeforeEnd s op && neverWraps (s.step op) ops

/-- The header fields decoded from the file of `s` (as `recall` reads them):
`head_index`, `tail_index`, `file_size`, `pos_free`. -/
def mediaHeader (s : Logger) : Int × Int × Int × Int :=
  ((Logger.recall s).head_index, (Logger.recall s).tail_index,
   (Logger.recall s).file_size, (Logger.recall s).pos_free)

/-- The header fields held in memory. -/
def memoryHeader (s : Logger) : Int × Int × Int × Int :=
  (s.head_index, s.tail_index, s.file_size, s.pos_free)

/-- Two stores that agree on the four fields and on every byte of the data
region (from offset 64 on). -/
structure SameData (s t : Logger) : Prop where
  head_eq : s.head_index = t.head_index
  tail_eq : s.tail_index = t.tail_index
  size_eq : s.file_size = t.file_size
  free_eq : s.pos_free = t.pos_free
  data_eq : ∀ i : Nat, 64 ≤ i → s.file_buffer.content[i]? = t.file_buffer.content[i]?

/-- What the read loop of `dequeue` relies on: the handle is open, the file is
at least `file_size > 64` bytes long, `tail_index` lies in `[64, file_size]`
and the members are values of the type `long`. -/
structure ReadInv (s : Logger) : Prop where
  isOpen : s.file_buffer.isOpen = true
  size_lo : 64 < s.file_size
  size_hi : s.file_size ≤ 2147483647
  length_ge : s.file_size ≤ (s.file_buffer.content.length : Int)
  tail_lo : 64 ≤ s.tail_index
  tail_hi : s.tail_index ≤ s.file_size
  free_lo : -2147483648 ≤ s.pos_free

/-- The calls of `read()` made by `n` iterations of the loop of `dequeue`: for
each the cursor position at which it is made and the value it returns; the
list ends with a read that returns `-1`, as the loop does. -/
def dequeueTrace : Nat → Logger → List (Nat × Int)
  | 0, _ => []
  | n + 1, s =>
    let s1 : Logger :=
      if s.tail_index = s.file_size then
        { s with tail_index := jump_header,
                 file_buffer := (s.file_buffer.seek jump_header).1 }
      else s
    let r := s1.file_buffer.read
    if r.2 = -1 then [(s1.file_buffer.pos, r.2)]
    else
      let s2 : Logger :=
        { s1 with file_buffer := r.1, pos_free := wrapLong (s1.pos_free + 1) }
      let s3 : Logger :=
        { s2 with tail_index :=
            if s2.tail_index = s2.file_size then jump_header
            else wrapLong (s2.tail_index + 1) }
      (s1.file_buffer.pos, r.2) :: dequeueTrace n s3

/-- The calls of `read()` made by `dequeue(data, len)`, in order: cursor
position and returned value (none when the guard `num_items() >= len`
fails). -/
def Logger.dequeueTrace (s : Logger) (len : Int) : List (Nat × Int) :=
  if s.num_items ≥ len then
    SpiffsLogger.dequeueTrace (toSizeT len)
      { s with file_buffer := (s.file_buffer.seek s.tail_index).1 }
  else []

/-- The offset `64 + ((tail_index - 64 + i) mod (total_size - 64))` at which
the specification places the `i`-th byte read by a `dequeue`. -/
def ringOffset (s : Logger) (i : Nat) : Nat :=
  (64 + (s.tail_index - 64 + i) % (s.file_size - 64)).toNat

/-! ## Lemmas -/

theorem wrapLong_eq {x : Int} (h1 : -2147483648 ≤ x) (h2 : x ≤ 2147483647) : wrapLong x = x := by
  unfold wrapLong; omega

theorem toSizeT_eq {x : Int} (h1 : 0 ≤ x) (h2 : x ≤ 2147483647) : toSizeT x = x.toNat := by
  unfold toSizeT; omega

theorem toUInt8_val (b : Byte) : toUInt8 (b.val : Int) = b := by
  apply Fin.ext
  have := b.isLt
  simp only [toUInt8]
  omega

theorem writeAt_length (cs : List Byte) (p : Nat) (bs : List Byte) (h : p + bs.length ≤ cs.length) :
    (writeAt cs p bs).length = cs.length := by
  simp [writeAt]; omega

theorem writeAt_getElem? (cs : List Byte) (p : Nat) (bs : List Byte) (i : Nat) (h : p ≤ cs.length) :
    (writeAt cs p bs)[i]? = if i < p then (cs[i]?) else if i < p + bs.length then (bs[i - p]?) else (cs[i]?) := by
  unfold writeAt
  by_cases h1 : i < p
  · simp [h1, List.getElem?_append_left, List.getElem?_take, List.length_take, Nat.min_eq_left h]
  · by_cases h2 : i < p + bs.length
    · simp only [h1, h2, if_true, if_false]
      rw [List.getElem?_append_left (by simp; omega)]
      rw [List.getElem?_append_right (by simp; omega)]
      simp [Nat.min_eq_left h]
    · simp only [h1, h2, if_false]
      rw [List.getElem?_append_right (by simp; omega)]
      simp [Nat.min_eq_left h]
      congr 1; omega

/-! ### Header text -/

theorem natDigits_length (fuel : Nat) : ∀ (k n : Nat), n < 10 ^ (k + 1) →
    (natDigits fuel n).length ≤ k + 1 := by
  induction fuel with
  | zero => intro k n _; simp [natDigits]
  | succ fuel ih =>
    intro k n hn
    unfold natDigits
    by_cases h : n < 10
    · simp [h]
    · simp only [h, if_false, List.length_append, List.length_singleton]
      cases k with
      | zero => simp at hn; omega
      | succ k =>
        have : n / 10 < 10 ^ (k + 1) := by
          rw [Nat.div_lt_iff_lt_mul (by norm_num)]
          calc n < 10 ^ (k + 1 + 1) := hn
            _ = 10 ^ (k + 1) * 10 := by ring
        have := ih k (n / 10) this
        omega

theorem fmtLong_length {x : Int} (h1 : LONG_MIN ≤ x) (h2 : x ≤ LONG_MAX) :
    (fmtLong x).length ≤ 11 := by
  have hn : x.natAbs < 10 ^ (9 + 1) := by
    simp only [LONG_MIN, LONG_MAX] at h1 h2
    norm_num
    omega
  have := natDigits_length x.natAbs 9 x.natAbs hn
  unfold fmtLong
  split <;> simp <;> omega

theorem fmtHeader_length {a b c d : Int}
    (ha1 : LONG_MIN ≤ a) (ha2 : a ≤ LONG_MAX) (hb1 : LONG_MIN ≤ b) (hb2 : b ≤ LONG_MAX)
    (hc1 : LONG_MIN ≤ c) (hc2 : c ≤ LONG_MAX) (hd1 : LONG_MIN ≤ d) (hd2 : d ≤ LONG_MAX) :
    (fmtHeader a b c d).length ≤ 50 := by
  have := fmtLong_length ha1 ha2
  have := fmtLong_length hb1 hb2
  have := fmtLong_length hc1 hc2
  have := fmtLong_length hd1 hd2
  simp [fmtHeader]
  omega

/-! ### File operations on an open handle -/

theorem seek_ok (f : File) (off : Int) (ho : f.isOpen = true) (h0 : 0 ≤ off)
    (h1 : off ≤ (f.content.length : Int)) (h2 : off ≤ 2147483647) :
    f.seek off = ({ f with pos := off.toNat }, true) := by
  have e : toSizeT off = off.toNat := toSizeT_eq h0 h2
  have : off.toNat ≤ f.content.length := by omega
  simp [File.seek, ho, e, this]

theorem write_ok (f : File) (buf : List Byte) (n : Nat) (ho : f.isOpen = true) :
    f.write buf n =
      ({ content := writeAt f.content f.pos (buf.take n),
         pos := f.pos + (buf.take n).length, isOpen := true },
       ((buf.take n).length : Int)) := by
  cases f
  simp_all [File.write]

theorem printText_ok (f : File) (text : List Byte) (ho : f.isOpen = true) :
    f.printText text =
      { content := writeAt f.content f.pos text, pos := f.pos + text.length, isOpen := true } := by
  simp [File.printText, write_ok _ _ _ ho]

theorem header_length_le (s : Logger) (hr : InRange s) :
    (fmtHeader s.head_index s.tail_index s.file_size s.pos_free).length ≤ 50 :=
  fmtHeader_length (by simpa [LONG_MIN] using hr.head_lo) (by simpa [LONG_MAX] using hr.head_hi)
    (by simpa [LONG_MIN] using hr.tail_lo) (by simpa [LONG_MAX] using hr.tail_hi)
    (by simpa [LONG_MIN] using hr.size_lo) (by simpa [LONG_MAX] using hr.size_hi)
    (by simpa [LONG_MIN] using hr.free_lo) (by simpa [LONG_MAX] using hr.free_hi)

theorem store_ok (s : Logger) (ho : s.file_buffer.isOpen = true) :
    s.store =
      { s with file_buffer :=
          { content := writeAt s.file_buffer.content 0
              (fmtHeader s.head_index s.tail_index s.file_size s.pos_free),
            pos := (fmtHeader s.head_index s.tail_index s.file_size s.pos_free).length,
            isOpen := true } } := by
  have hs : s.file_buffer.seek 0 = ({ s.file_buffer with pos := 0 }, true) := by
    simpa using seek_ok s.file_buffer 0 ho (le_refl _) (by omega) (by norm_num)
  simp only [Logger.store, hs]
  rw [printText_ok _ _ (by exact ho)]
  simp

/-! ### The working invariant -/

theorem Inv.inRange {s : Logger} (h : Inv s) : InRange s := by
  have := h.size_lo; have := h.size_hi; have := h.head_lo; have := h.head_hi
  have := h.tail_lo; have := h.tail_hi; have := h.free_lo; have := h.free_hi
  constructor <;> omega

theorem seek_mk (cs : List Byte) (p : Nat) (off : Int) (h0 : 0 ≤ off)
    (h1 : off ≤ (cs.length : Int)) (h2 : off ≤ 2147483647) :
    File.seek { content := cs, pos := p, isOpen := true } off =
      ({ content := cs, pos := off.toNat, isOpen := true }, true) := by
  simpa using seek_ok { content := cs, pos := p, isOpen := true } off rfl h0 h1 h2

theorem write_mk (cs : List Byte) (p : Nat) (buf : List Byte) (n : Nat) :
    File.write { content := cs, pos := p, isOpen := true } buf n =
      ({ content := writeAt cs p (buf.take n), pos := p + (buf.take n).length, isOpen := true },
       ((buf.take n).length : Int)) := by
  simpa using write_ok { content := cs, pos := p, isOpen := true } buf n rfl

theorem enqueue_single {s : Logger} (hi : Inv s) (data : List Byte) {len : Int}
    (h0 : 0 ≤ len) (h1 : len ≤ s.pos_free) (h2 : len ≤ s.file_size - s.head_index) :
    s.enqueue data len = ((enqueueSingle s data len).store, true) := by
  obtain ⟨⟨cs, p, o⟩, hd, tl, fs, pf⟩ := s
  obtain ⟨ho, _, _, hl, _, _, _, _, _, _⟩ := hi
  simp only at *
  subst ho
  have e1 : wrapLong (fs - hd) = fs - hd := wrapLong_eq (by omega) (by omega)
  have e2 : wrapLong (hd + len) = hd + len := wrapLong_eq (by omega) (by omega)
  have e3 : wrapLong (pf - len) = pf - len := wrapLong_eq (by omega) (by omega)
  have e4 : toSizeT len = len.toNat := toSizeT_eq h0 (by omega)
  simp only [Logger.enqueue, enqueueSingle, e1, e2, e3, e4,
    if_pos (by omega : pf ≥ len), if_pos (by omega : fs - hd ≥ len),
    seek_mk cs p hd (by omega) (by omega) (by omega), write_mk]

theorem enqueue_wrap {s : Logger} (hi : Inv s) (data : List Byte) {len : Int}
    (h1 : len ≤ s.pos_free) (h2 : s.file_size - s.head_index < len) :
    s.enqueue data len = ((enqueueWrapped s data len).store, true) := by
  obtain ⟨⟨cs, p, o⟩, hd, tl, fs, pf⟩ := s
  obtain ⟨ho, _, _, hl, _, _, _, _, _, _⟩ := hi
  simp only at *
  subst ho
  have e1 : wrapLong (fs - hd) = fs - hd := wrapLong_eq (by omega) (by omega)
  have e3 : wrapLong (pf - len) = pf - len := wrapLong_eq (by omega) (by omega)
  have e4 : toSizeT (fs - hd) = (fs - hd).toNat := toSizeT_eq (by omega) (by omega)
  have hd1 : ((data.take (fs - hd).toNat).length : Int) ≤ fs - hd := by
    simp only [List.length_take]; omega
  have e5 : wrapLong (len - (data.take (fs - hd).toNat).length)
      = len - (data.take (fs - hd).toNat).length := wrapLong_eq (by omega) (by omega)
  have e6 : toSizeT (len - (data.take (fs - hd).toNat).length)
      = (len - (data.take (fs - hd).toNat).length).toNat := toSizeT_eq (by omega) (by omega)
  have hlen : (writeAt cs hd.toNat (data.take (fs - hd).toNat)).length = cs.length := by
    apply writeAt_length
    simp only [List.length_take]; omega
  have hj : jump_header.toNat = 64 := rfl
  have hs3 := seek_mk (writeAt cs hd.toNat (data.take (fs - hd).toNat))
    (hd.toNat + (data.take (fs - hd).toNat).length) jump_header (by simp [jump_header])
    (by simp only [hlen, jump_header]; omega) (by simp [jump_header])
  simp only [Logger.enqueue, enqueueWrapped, e1, e3, e4, e5, e6, Int.toNat_ofNat,
    if_pos (by omega : pf ≥ len), if_neg (by omega : ¬ fs - hd ≥ len),
    seek_mk cs _ hd (by omega) (by omega) (by omega), write_mk, hs3, hj]
  rfl

theorem store_inv {s : Logger} (hi : Inv s) : Inv s.store := by
  have hh := header_length_le s hi.inRange
  have hlen := hi.length_eq
  have := hi.size_lo
  rw [store_ok s hi.isOpen]
  have hw : (writeAt s.file_buffer.content 0
      (fmtHeader s.head_index s.tail_index s.file_size s.pos_free)).length
      = s.file_buffer.content.length := writeAt_length _ _ _ (by omega)
  exact ⟨rfl, hi.size_lo, hi.size_hi, by simp only [hw]; exact hlen, hi.head_lo, hi.head_hi,
    hi.tail_lo, hi.tail_hi, hi.free_lo, hi.free_hi⟩

theorem store_getElem? {s : Logger} (hi : Inv s) (i : Nat) (h : 64 ≤ i) :
    s.store.file_buffer.content[i]? = s.file_buffer.content[i]? := by
  have hh := header_length_le s hi.inRange
  rw [store_ok s hi.isOpen]
  simp only
  rw [writeAt_getElem? _ _ _ _ (Nat.zero_le _)]
  rw [if_neg (by omega), if_neg (by omega)]

theorem store_length {s : Logger} (hi : Inv s) :
    s.store.file_buffer.content.length = s.file_buffer.content.length := by
  have h1 := (store_inv hi).length_eq
  have h2 := hi.length_eq
  have : s.store.file_size = s.file_size := rfl
  omega

theorem enqueueSingle_inv {s : Logger} (hi : Inv s) (data : List Byte) {len : Int}
    (h0 : 0 ≤ len) (h1 : len ≤ s.pos_free) (h2 : len ≤ s.file_size - s.head_index) :
    Inv (enqueueSingle s data len) := by
  obtain ⟨ho, _, _, hl, _, _, _, _, _, _⟩ := hi
  have hw : (writeAt s.file_buffer.content s.head_index.toNat (data.take len.toNat)).length
      = s.file_buffer.content.length := by
    apply writeAt_length
    simp only [List.length_take]; omega
  refine ⟨rfl, ?_, ?_, ?_, ?_, ?_, ?_, ?_, ?_, ?_⟩ <;> simp only [enqueueSingle, hw] <;> omega

theorem enqueueWrapped_inv {s : Logger} (hi : Inv s) (data : List Byte) {len : Int}
    (h1 : len ≤ s.pos_free) (h2 : s.file_size - s.head_index < len) :
    Inv (enqueueWrapped s data len) := by
  obtain ⟨ho, _, _, hl, _, _, _, _, _, _⟩ := hi
  have hw1 : (writeAt s.file_buffer.content s.head_index.toNat
      (data.take (s.file_size - s.head_index).toNat)).length = s.file_buffer.content.length := by
    apply writeAt_length
    simp only [List.length_take]; omega
  have hw : (writeAt (writeAt s.file_buffer.content s.head_index.toNat
      (data.take (s.file_size - s.head_index).toNat)) 64
      ((data.drop (data.take (s.file_size - s.head_index).toNat).length).take
        (len - (data.take (s.file_size - s.head_index).toNat).length).toNat)).length
      = s.file_buffer.content.length := by
    rw [writeAt_length, hw1]
    rw [hw1]
    simp only [List.length_take, List.length_drop]; omega
  refine ⟨rfl, ?_, ?_, ?_, ?_, ?_, ?_, ?_, ?_, ?_⟩ <;> simp only [enqueueWrapped, hw] <;> omega

theorem enqueue_inv {s : Logger} (hi : Inv s) (data : List Byte) {len : Int} (h0 : 0 ≤ len) :
    Inv (s.enqueue data len).1 := by
  by_cases h1 : len ≤ s.pos_free
  · by_cases h2 : len ≤ s.file_size - s.head_index
    · rw [enqueue_single hi data h0 h1 h2]
      exact store_inv (enqueueSingle_inv hi data h0 h1 h2)
    · rw [enqueue_wrap hi data h1 (by omega)]
      exact store_inv (enqueueWrapped_inv hi data h1 (by omega))
  · have : s.enqueue data len = (s, false) := by
      unfold Logger.enqueue
      rw [if_neg (by omega)]
    rw [this]; exact hi

/-! ### The read loop of `dequeue` -/

theorem readPos_bounds {s : Logger} (hi : Inv s) (hfs : 64 < s.file_size) :
    64 ≤ readPos s ∧ (readPos s : Int) < s.file_size := by
  have := hi.tail_lo; have := hi.tail_hi
  unfold readPos
  split <;> omega

theorem dequeueLoop_succ {s : Logger} (hi : Inv s) (hfs : 64 < s.file_size)
    (hp : s.file_buffer.pos = s.tail_index.toNat) (hf : s.pos_free < s.file_size - 64)
    (n : Nat) (data : List Byte) :
    ∃ b, s.file_buffer.content[readPos s]? = some b ∧
      dequeueLoop (n + 1) s data = dequeueLoop n (afterRead s) (data.set 0 b) := by
  have hb := readPos_bounds hi hfs
  obtain ⟨⟨cs, p, o⟩, hd, tl, fs, pf⟩ := s
  obtain ⟨ho, _, _, hl, _, _, _, _, _, _⟩ := hi
  simp only at *
  subst ho
  subst hp
  have hlt : readPos ⟨⟨cs, tl.toNat, true⟩, hd, tl, fs, pf⟩ < cs.length := by omega
  refine ⟨cs[readPos ⟨⟨cs, tl.toNat, true⟩, hd, tl, fs, pf⟩], List.getElem?_eq_getElem hlt, ?_⟩
  have e1 : wrapLong (pf + 1) = pf + 1 := wrapLong_eq (by omega) (by omega)
  by_cases ht : tl = fs
  · subst ht
    have hr : readPos ⟨⟨cs, tl.toNat, true⟩, hd, tl, tl, pf⟩ = 64 := by simp [readPos]
    have h64 : (64 : Nat) < cs.length := by omega
    simp only [hr] at hlt ⊢
    have hs := seek_mk cs tl.toNat jump_header (by simp [jump_header])
      (by simp only [jump_header]; omega) (by simp [jump_header])
    have hj : jump_header.toNat = 64 := rfl
    have hne : ¬ jump_header = tl := by simp only [jump_header]; omega
    have hw : wrapLong (jump_header + 1) = 65 := by
      rw [wrapLong_eq] <;> simp [jump_header]
    have hnn : ¬ ((cs[64].val : Int) = -1) := by omega
    simp only [dequeueLoop, afterRead, if_true, hs, hj, File.read, List.getElem?_eq_getElem h64,
      hnn, if_false, e1, hne, hw, toUInt8_val, hr]
    rfl
  · have hr : readPos ⟨⟨cs, tl.toNat, true⟩, hd, tl, fs, pf⟩ = tl.toNat := by simp [readPos, ht]
    simp only [hr] at hlt ⊢
    have hw : wrapLong (tl + 1) = tl + 1 := wrapLong_eq (by omega) (by omega)
    have hnn : ¬ ((cs[tl.toNat].val : Int) = -1) := by omega
    have hc : ((tl.toNat : Nat) : Int) = tl := by omega
    simp only [dequeueLoop, afterRead, ht, if_false, File.read, List.getElem?_eq_getElem hlt,
      hnn, e1, hw, toUInt8_val, hr, hc, if_true]

theorem afterRead_inv {s : Logger} (hi : Inv s) (hfs : 64 < s.file_size)
    (hf : s.pos_free < s.file_size - 64) : Inv (afterRead s) := by
  have hb := readPos_bounds hi hfs
  obtain ⟨ho, _, _, hl, _, _, _, _, _, _⟩ := hi
  refine ⟨ho, ?_, ?_, ?_, ?_, ?_, ?_, ?_, ?_, ?_⟩ <;> simp only [afterRead] <;> omega

theorem afterRead_pos (s : Logger) :
    (afterRead s).file_buffer.pos = (afterRead s).tail_index.toNat := by
  simp only [afterRead]; omega

theorem dequeueLoop_inv (n : Nat) : ∀ (s : Logger) (data : List Byte), Inv s →
    s.file_buffer.pos = s.tail_index.toNat → s.pos_free + n ≤ s.file_size - 64 →
    Inv (dequeueLoop n s data).1 ∧ (dequeueLoop n s data).2.2 = true ∧
    (dequeueLoop n s data).1.head_index = s.head_index ∧
    (dequeueLoop n s data).1.file_size = s.file_size ∧
    (dequeueLoop n s data).1.pos_free = s.pos_free + n ∧
    (dequeueLoop n s data).1.file_buffer.content = s.file_buffer.content := by
  induction n with
  | zero => intro s data hi _ _; simp [dequeueLoop, hi]
  | succ n ih =>
    intro s data hi hp hf
    have hfl := hi.free_lo
    have hfs : 64 < s.file_size := by omega
    have hf1 : s.pos_free < s.file_size - 64 := by omega
    obtain ⟨b, _, hstep⟩ := dequeueLoop_succ hi hfs hp hf1 n data
    rw [hstep]
    have h := ih (afterRead s) (data.set 0 b) (afterRead_inv hi hfs hf1) (afterRead_pos s)
      (by simp only [afterRead]; omega)
    refine ⟨h.1, h.2.1, h.2.2.1, h.2.2.2.1, ?_, h.2.2.2.2.2⟩
    rw [h.2.2.2.2.1]; simp only [afterRead]; push_cast; omega

theorem num_items_eq {s : Logger} (hi : Inv s) :
    s.num_items = s.file_size - s.pos_free - 64 := by
  have := hi.size_lo; have := hi.size_hi; have := hi.free_lo; have := hi.free_hi
  unfold Logger.num_items
  rw [wrapLong_eq (x := s.file_size - s.pos_free) (by omega) (by omega)]
  simp only [jump_header]
  rw [wrapLong_eq (by omega) (by omega)]

theorem afterSeek_inv {s : Logger} (hi : Inv s) : Inv (afterSeek s) := by
  obtain ⟨ho, h1, h2, hl, h3, h4, h5, h6, h7, h8⟩ := hi
  exact ⟨ho, h1, h2, hl, h3, h4, h5, h6, h7, h8⟩

theorem dequeue_ok {s : Logger} (hi : Inv s) (data : List Byte) {len : Int}
    (h0 : 0 ≤ len) (h1 : len ≤ s.num_items) :
    s.dequeue data len = dequeueLoop len.toNat (afterSeek s) data := by
  have := hi.size_lo; have := hi.size_hi; have := hi.free_lo; have := hi.free_hi
  have := hi.tail_lo; have := hi.tail_hi; have := hi.length_eq
  have hn := num_items_eq hi
  have e : toSizeT len = len.toNat := toSizeT_eq h0 (by omega)
  unfold Logger.dequeue
  rw [if_pos (by omega : s.num_items ≥ len), e,
    seek_ok s.file_buffer s.tail_index hi.isOpen (by omega) (by omega) (by omega)]
  rfl

theorem dequeue_reject (s : Logger) (data : List Byte) {len : Int} (h : s.num_items < len) :
    s.dequeue data len = (s, data, false) := by
  unfold Logger.dequeue
  rw [if_neg (by omega)]

theorem dequeue_inv {s : Logger} (hi : Inv s) (data : List Byte) {len : Int} (h0 : 0 ≤ len) :
    Inv (s.dequeue data len).1 ∧ (s.dequeue data len).1.file_size = s.file_size := by
  by_cases h1 : len ≤ s.num_items
  · rw [dequeue_ok hi data h0 h1]
    have hn := num_items_eq hi
    have h := dequeueLoop_inv len.toNat (afterSeek s) data (afterSeek_inv hi) rfl
      (by simp only [afterSeek]; omega)
    exact ⟨h.1, h.2.2.2.1⟩
  · rw [dequeue_reject s data (by omega)]
    exact ⟨hi, rfl⟩

/-! ### Construction -/

theorem printSpaces_eq (n : Nat) : ∀ (cs : List Byte),
    File.printSpaces n { content := cs, pos := cs.length, isOpen := true } =
      { content := cs ++ List.replicate n 32, pos := cs.length + n, isOpen := true } := by
  induction n with
  | zero => intro cs; simp [File.printSpaces]
  | succ n ih =>
    intro cs
    have h := ih (cs ++ [32])
    simp only [File.printSpaces, File.printText, write_mk, writeAt, List.length_singleton,
      List.take_length, List.drop_length, List.length_append, List.take_succ_cons, List.take_zero,
      List.drop_eq_nil_of_le (Nat.le_add_right cs.length 1), List.append_nil] at h ⊢
    rw [h]
    simp [List.replicate_succ, Nat.add_assoc, Nat.add_comm 1 n]

theorem create_eq {total_size : Int} (h1 : 64 ≤ total_size) (h2 : total_size ≤ 2147483647) :
    Logger.create total_size = (reserved total_size).store := by
  have e : wrapLong (total_size - jump_header) = total_size - 64 := by
    simp only [jump_header]; exact wrapLong_eq (by omega) (by omega)
  have hp := printSpaces_eq total_size.toNat []
  simp only [List.length_nil, List.nil_append, Nat.zero_add] at hp
  simp only [Logger.create, Logger.new, openFile, if_true, Option.getD_none, e, hp, reserved,
    Bool.true_eq_false, if_false]
  rfl

theorem reserved_inv {total_size : Int} (h1 : 64 ≤ total_size) (h2 : total_size ≤ 2147483647) :
    Inv (reserved total_size) := by
  refine ⟨rfl, ?_, ?_, ?_, ?_, ?_, ?_, ?_, ?_, ?_⟩ <;> simp only [reserved, List.length_replicate]
    <;> omega

theorem create_inv {total_size : Int} (h1 : 64 ≤ total_size) (h2 : total_size ≤ 2147483647) :
    Inv (Logger.create total_size) := by
  rw [create_eq h1 h2]; exact store_inv (reserved_inv h1 h2)

/-! ## First-in first-out order on a fresh store -/

theorem enqueueSingle_getElem? {s : Logger} (hi : Inv s) (data : List Byte) (len : Int) (i : Nat) :
    (enqueueSingle s data len).file_buffer.content[i]? =
      if i < s.head_index.toNat then (s.file_buffer.content[i]?)
      else if i < s.head_index.toNat + (data.take len.toNat).length then
        ((data.take len.toNat)[i - s.head_index.toNat]?)
      else (s.file_buffer.content[i]?) := by
  have := hi.head_lo; have := hi.head_hi; have := hi.length_eq
  simp only [enqueueSingle]
  exact writeAt_getElem? _ _ _ _ (by omega)

theorem filled_enqueue {s : Logger} {pre : List Byte} (b : Byte) (hi : Inv s)
    (hh : s.head_index = 64 + pre.length) (ht : s.tail_index = 64)
    (hf : s.pos_free = s.file_size - 64 - pre.length)
    (hc : ∀ i, i < pre.length → s.file_buffer.content[64 + i]? = pre[i]?)
    (hroom : (pre.length : Int) + 1 ≤ s.file_size - 64) :
    (s.enqueue [b] 1).2 = true ∧ Inv (s.enqueue [b] 1).1 ∧
    (s.enqueue [b] 1).1.head_index = 64 + (pre ++ [b]).length ∧
    (s.enqueue [b] 1).1.tail_index = 64 ∧
    (s.enqueue [b] 1).1.file_size = s.file_size ∧
    (s.enqueue [b] 1).1.pos_free = s.file_size - 64 - (pre ++ [b]).length ∧
    (∀ i, i < (pre ++ [b]).length →
      (s.enqueue [b] 1).1.file_buffer.content[64 + i]? = (pre ++ [b])[i]?) := by
  have h1 : (1 : Int) ≤ s.pos_free := by omega
  have h2 : (1 : Int) ≤ s.file_size - s.head_index := by omega
  have hsi := enqueueSingle_inv hi [b] (by norm_num) h1 h2
  rw [enqueue_single hi [b] (by norm_num) h1 h2]
  refine ⟨rfl, store_inv hsi, ?_, ht, rfl, ?_, ?_⟩
  · show s.head_index + 1 = _
    simp only [List.length_append, List.length_singleton]; push_cast; omega
  · show s.pos_free - 1 = _
    simp only [List.length_append, List.length_singleton]; push_cast; omega
  · intro i hlt
    simp only [List.length_append, List.length_singleton] at hlt
    show (enqueueSingle s [b] 1).store.file_buffer.content[64 + i]? = _
    rw [store_getElem? hsi _ (by omega), enqueueSingle_getElem? hi]
    have hn : s.head_index.toNat = 64 + pre.length := by omega
    by_cases hlt2 : i < pre.length
    · rw [if_pos (by omega), hc i hlt2, List.getElem?_append_left hlt2]
    · have hie : i = pre.length := by omega
      subst hie
      rw [if_neg (by omega), if_pos (by simp; omega)]
      simp [hn]

theorem enqueueEach_filled (bs : List Byte) : ∀ (s : Logger) (pre : List Byte), Inv s →
    s.head_index = 64 + pre.length → s.tail_index = 64 →
    s.pos_free = s.file_size - 64 - pre.length →
    (∀ i, i < pre.length → s.file_buffer.content[64 + i]? = pre[i]?) →
    (pre.length : Int) + bs.length ≤ s.file_size - 64 →
    (enqueueEach s bs).2 = List.replicate bs.length true ∧ Inv (enqueueEach s bs).1 ∧
    (enqueueEach s bs).1.tail_index = 64 ∧
    (enqueueEach s bs).1.file_size = s.file_size ∧
    (enqueueEach s bs).1.pos_free = s.file_size - 64 - (pre ++ bs).length ∧
    (∀ i, i < (pre ++ bs).length →
      (enqueueEach s bs).1.file_buffer.content[64 + i]? = (pre ++ bs)[i]?) := by
  induction bs with
  | nil =>
    intro s pre hi _ ht hf hc _
    simp only [enqueueEach, List.append_nil, List.length_nil, List.replicate_zero]
    exact ⟨trivial, hi, ht, trivial, hf, hc⟩
  | cons b bs ih =>
    intro s pre hi hh ht hf hc hroom
    simp only [List.length_cons] at hroom
    push_cast at hroom
    obtain ⟨g1, g2, g3, g4, g5, g6, g7⟩ := filled_enqueue b hi hh ht hf hc (by omega)
    have h := ih (s.enqueue [b] 1).1 (pre ++ [b]) g2 g3 g4 (by rw [g5]; exact g6)
      g7 (by rw [g5]; simp only [List.length_append, List.length_singleton]; push_cast; omega)
    simp only [List.append_assoc, List.singleton_append] at h
    obtain ⟨k1, k2, k3, k4, k5, k6⟩ := h
    simp only [enqueueEach, g1, k1, List.length_cons, List.replicate_succ]
    exact ⟨trivial, k2, k3, k4.trans g5, by rw [k5, g5], k6⟩

theorem draining_dequeue {s : Logger} {all : List Byte} {j : Nat} (o : Byte) (hi : Inv s)
    (ht : s.tail_index = 64 + j) (hj : j < all.length)
    (hf : s.pos_free = s.file_size - 64 - (all.length - j : Nat))
    (hroom : (all.length : Int) ≤ s.file_size - 64)
    (hc : ∀ i, i < all.length → s.file_buffer.content[64 + i]? = all[i]?) :
    (s.dequeue [o] 1).2 = ([all[j]], true) ∧ Inv (s.dequeue [o] 1).1 ∧
    (s.dequeue [o] 1).1.tail_index = 64 + (j + 1 : Nat) ∧
    (s.dequeue [o] 1).1.file_size = s.file_size ∧
    (s.dequeue [o] 1).1.pos_free = s.file_size - 64 - (all.length - (j + 1) : Nat) ∧
    (s.dequeue [o] 1).1.file_buffer.content = s.file_buffer.content := by
  have hn := num_items_eq hi
  have hfs : 64 < s.file_size := by omega
  have hf1 : s.pos_free < s.file_size - 64 := by omega
  rw [dequeue_ok hi [o] (by norm_num) (by omega)]
  obtain ⟨b, hb, hstep⟩ := dequeueLoop_succ (afterSeek_inv hi) hfs rfl hf1 0 [o]
  have hrp : readPos (afterSeek s) = 64 + j := by
    simp only [readPos, afterSeek]
    rw [if_neg (by omega)]; omega
  have hbe : b = all[j] := by
    have h1 := hc j hj
    rw [hrp] at hb
    have h2 : (afterSeek s).file_buffer.content = s.file_buffer.content := rfl
    rw [h2, h1, List.getElem?_eq_getElem hj] at hb
    exact (Option.some.inj hb).symm
  have e1 : (1 : Int).toNat = 0 + 1 := rfl
  rw [e1, hstep]
  simp only [dequeueLoop, List.set_cons_zero, hbe]
  refine ⟨trivial, afterRead_inv (afterSeek_inv hi) hfs hf1, ?_, rfl, ?_, rfl⟩
  · simp only [afterRead, hrp]; push_cast; omega
  · simp only [afterRead, afterSeek]; omega

theorem dequeueEach_draining (all : List Byte) (o : Byte) (n : Nat) : ∀ (s : Logger) (j : Nat),
    Inv s → s.tail_index = 64 + j → j + n = all.length →
    s.pos_free = s.file_size - 64 - (all.length - j : Nat) →
    (all.length : Int) ≤ s.file_size - 64 →
    (∀ i, i < all.length → s.file_buffer.content[64 + i]? = all[i]?) →
    dequeueEach n s o = (all.drop j).map (fun b => ([b], true)) := by
  induction n with
  | zero =>
    intro s j _ _ hj _ _ _
    simp only [dequeueEach]
    rw [List.drop_eq_nil_of_le (by omega)]; rfl
  | succ n ih =>
    intro s j hi ht hj hf hroom hc
    have hlt : j < all.length := by omega
    obtain ⟨g1, g2, g3, g4, g5, g6⟩ := draining_dequeue o hi ht hlt hf hroom hc
    have h := ih (s.dequeue [o] 1).1 (j + 1) g2 g3 (by omega) (by rw [g4]; exact g5)
      (by rw [g4]; exact hroom) (by rw [g6]; exact hc)
    simp only [dequeueEach, g1, h]
    rw [List.drop_eq_getElem_cons hlt]
    rfl

/-! ## Reachable states -/

theorem enqueue_file_size (s : Logger) (data : List Byte) (len : Int) :
    (s.enqueue data len).1.file_size = s.file_size := by
  simp only [Logger.enqueue]
  split_ifs <;> rfl

theorem step_inv {s : Logger} (hi : Inv s) (op : Op) (h0 : 0 ≤ op.len) :
    Inv (s.step op) ∧ (s.step op).file_size = s.file_size := by
  cases op with
  | enqueue data len => exact ⟨enqueue_inv hi data h0, enqueue_file_size s data len⟩
  | dequeue data len => exact dequeue_inv hi data h0

theorem run_inv (ops : List Op) : ∀ {s : Logger}, Inv s → (∀ op ∈ ops, 0 ≤ op.len) →
    Inv (s.run ops) ∧ (s.run ops).file_size = s.file_size := by
  induction ops with
  | nil => intro s hi _; exact ⟨hi, rfl⟩
  | cons op ops ih =>
    intro s hi h
    have h1 := step_inv hi op (h op (List.mem_cons_self _ _))
    have h2 := ih h1.1 (fun o ho => h o (List.mem_cons_of_mem _ ho))
    exact ⟨h2.1, h2.2.trans h1.2⟩

theorem create_file_size {total_size : Int} (h1 : 64 ≤ total_size)
    (h2 : total_size ≤ 2147483647) : (Logger.create total_size).file_size = total_size := by
  rw [create_eq h1 h2]; rfl

/-! ## Runs that never take the wraparound branch -/

theorem dequeueLoop_tail (n : Nat) : ∀ (s : Logger) (data : List Byte), Inv s →
    s.file_buffer.pos = s.tail_index.toNat → s.pos_free + n ≤ s.file_size - 64 →
    s.tail_index + n ≤ s.file_size →
    (dequeueLoop n s data).1.tail_index = s.tail_index + n := by
  induction n with
  | zero => intro s data _ _ _ _; simp [dequeueLoop]
  | succ n ih =>
    intro s data hi hp hf ht
    have hfl := hi.free_lo
    have htl := hi.tail_lo
    have hfs : 64 < s.file_size := by omega
    have hf1 : s.pos_free < s.file_size - 64 := by omega
    obtain ⟨b, _, hstep⟩ := dequeueLoop_succ hi hfs hp hf1 n data
    have hrp : readPos s = s.tail_index.toNat := by
      simp only [readPos]
      rw [if_neg (by omega)]
    have hat : (afterRead s).tail_index = s.tail_index + 1 := by
      simp only [afterRead, hrp]; omega
    rw [hstep, ih (afterRead s) (data.set 0 b) (afterRead_inv hi hfs hf1) (afterRead_pos s)
      (by simp only [afterRead]; omega) (by rw [hat]; simp only [afterRead]; push_cast at ht; omega),
      hat]
    push_cast; omega

theorem step_linear {s : Logger} (hi : Inv s)
    (hl : s.head_index - s.tail_index = s.file_size - s.pos_free - 64) (op : Op)
    (h0 : 0 ≤ op.len) (hfit : fitsBeforeEnd s op = true) :
    (s.step op).head_index - (s.step op).tail_index
      = (s.step op).file_size - (s.step op).pos_free - 64 := by
  cases op with
  | enqueue data len =>
    simp only [Op.len] at h0
    simp only [fitsBeforeEnd, decide_eq_true_eq] at hfit
    simp only [Logger.step]
    by_cases h1 : len ≤ s.pos_free
    · rw [enqueue_single hi data h0 h1 (hfit h1)]
      show (s.head_index + len) - s.tail_index = s.file_size - (s.pos_free - len) - 64
      omega
    · have : s.enqueue data len = (s, false) := by
        unfold Logger.enqueue
        rw [if_neg (by omega)]
      rw [this]; exact hl
  | dequeue data len =>
    simp only [Op.len] at h0
    simp only [Logger.step]
    have hn := num_items_eq hi
    have hh := hi.head_hi
    by_cases h1 : len ≤ s.num_items
    · rw [dequeue_ok hi data h0 h1]
      have h := dequeueLoop_inv len.toNat (afterSeek s) data (afterSeek_inv hi) rfl
        (by simp only [afterSeek]; omega)
      have ht := dequeueLoop_tail len.toNat (afterSeek s) data (afterSeek_inv hi) rfl
        (by simp only [afterSeek]; omega) (by simp only [afterSeek]; omega)
      rw [h.2.2.1, h.2.2.2.1, h.2.2.2.2.1, ht]
      simp only [afterSeek]
      omega
    · rw [dequeue_reject s data (by omega)]
      exact hl

theorem run_linear (ops : List Op) : ∀ {s : Logger}, Inv s →
    s.head_index - s.tail_index = s.file_size - s.pos_free - 64 →
    (∀ op ∈ ops, 0 ≤ op.len) → neverWraps s ops = true →
    (s.run ops).head_index - (s.run ops).tail_index
      = (s.run ops).file_size - (s.run ops).pos_free - 64 := by
  induction ops with
  | nil => intro s _ hl _ _; exact hl
  | cons op ops ih =>
    intro s hi hl h hw
    simp only [neverWraps, Bool.and_eq_true] at hw
    have h0 := h op (List.mem_cons_self _ _)
    exact ih (step_inv hi op h0).1 (step_linear hi hl op h0 hw.1)
      (fun o ho => h o (List.mem_cons_of_mem _ ho)) hw.2

/-! ## The header record read back -/

theorem digitChar_val (d : Nat) : (digitChar d).val = 48 + d % 10 := rfl

theorem isDigit_digitChar (d : Nat) : isDigit (digitChar d) = true := by
  have := Nat.mod_lt d (by norm_num : 10 > 0)
  simp only [isDigit, digitChar_val, Bool.and_eq_true, decide_eq_true_eq]
  omega

theorem natDigits_isDigit (fuel : Nat) : ∀ (n : Nat) (b : Byte), b ∈ natDigits fuel n →
    isDigit b = true := by
  induction fuel with
  | zero =>
    intro n b hb
    simp only [natDigits, List.mem_singleton] at hb
    rw [hb]; exact isDigit_digitChar n
  | succ fuel ih =>
    intro n b hb
    unfold natDigits at hb
    split at hb
    · simp only [List.mem_singleton] at hb
      rw [hb]; exact isDigit_digitChar n
    · simp only [List.mem_append, List.mem_singleton] at hb
      rcases hb with hb | hb
      · exact ih _ _ hb
      · rw [hb]; exact isDigit_digitChar _

theorem natDigits_ne_nil (fuel n : Nat) : natDigits fuel n ≠ [] := by
  cases fuel with
  | zero => simp [natDigits]
  | succ fuel =>
    unfold natDigits
    split <;> simp

theorem parseDigits_natDigits (fuel : Nat) : ∀ (n acc : Nat) (rest : List Byte), n ≤ fuel →
    parseDigits acc (natDigits fuel n ++ rest)
      = parseDigits (acc * 10 ^ (natDigits fuel n).length + n) rest := by
  induction fuel with
  | zero =>
    intro n acc rest hn
    have h0 : n = 0 := by omega
    subst h0
    simp [natDigits, parseDigits, isDigit_digitChar, digitChar_val]
  | succ fuel ih =>
    intro n acc rest hn
    unfold natDigits
    by_cases h : n < 10
    · simp only [h, if_true, List.singleton_append, parseDigits, isDigit_digitChar,
        digitChar_val, List.length_singleton, pow_one]
      congr 1
      omega
    · simp only [h, if_false, List.append_assoc, List.singleton_append, List.length_append,
        List.length_singleton]
      rw [ih (n / 10) acc _ (by omega)]
      simp only [parseDigits, isDigit_digitChar, digitChar_val, if_true]
      congr 1
      have hm : n % 10 % 10 = n % 10 := Nat.mod_mod _ _
      have hd := Nat.div_add_mod n 10
      rw [pow_succ]
      have : 48 + n % 10 % 10 - 48 = n % 10 := by omega
      rw [this]
      nlinarith [hd]

theorem clampLong_eq {x : Int} (h1 : LONG_MIN ≤ x) (h2 : x ≤ LONG_MAX) : clampLong x = x := by
  unfold clampLong
  rw [if_neg (by omega), if_neg (by omega)]

theorem isDigit_props {b : Byte} (h : isDigit b = true) :
    isSpace b = false ∧ b ≠ 45 ∧ b ≠ 43 ∧ b ≠ 124 := by
  simp only [isDigit, Bool.and_eq_true, decide_eq_true_eq] at h
  refine ⟨?_, ?_, ?_, ?_⟩
  · simp only [isSpace, Bool.or_eq_false_iff, decide_eq_false_iff_not, Bool.and_eq_false_iff,
      Fin.ext_iff]
    refine ⟨?_, ?_⟩
    · show ¬ (b.val = 32); omega
    · right; omega
  · intro hb; rw [hb] at h; revert h; decide
  · intro hb; rw [hb] at h; revert h; decide
  · intro hb; rw [hb] at h; revert h; decide

theorem toInt_fmtLong {x : Int} (h1 : LONG_MIN ≤ x) (h2 : x ≤ LONG_MAX) :
    toInt (fmtLong x) = x := by
  have hp := parseDigits_natDigits x.natAbs x.natAbs 0 [] (le_refl _)
  simp only [List.append_nil, Nat.zero_mul, Nat.zero_add, parseDigits] at hp
  obtain ⟨c, rest, hcr⟩ := List.exists_cons_of_ne_nil (natDigits_ne_nil x.natAbs x.natAbs)
  have hc : isDigit c = true :=
    natDigits_isDigit x.natAbs x.natAbs c (by rw [hcr]; exact List.mem_cons_self _ _)
  obtain ⟨q1, q2, q3, _⟩ := isDigit_props hc
  unfold fmtLong
  by_cases hx : x < 0
  · rw [if_pos hx]
    have hs : isSpace (45 : Byte) = false := by decide
    simp only [toInt, List.dropWhile_cons, hs, Bool.false_eq_true, if_false, if_true, hp]
    rw [clampLong_eq (by omega) (by omega)]
    omega
  · rw [if_neg hx, hcr]
    simp only [toInt, List.dropWhile_cons, q1, Bool.false_eq_true, if_false, q2, q3]
    rw [← hcr, hp, clampLong_eq (by omega) (by omega)]
    omega

theorem fmtLong_no_bar (x : Int) : ∀ b ∈ fmtLong x, b ≠ 124 := by
  intro b hb
  unfold fmtLong at hb
  split at hb
  · simp only [List.mem_cons] at hb
    rcases hb with hb | hb
    · rw [hb]; decide
    · exact (isDigit_props (natDigits_isDigit _ _ b hb)).2.2.2
  · exact (isDigit_props (natDigits_isDigit _ _ b hb)).2.2.2

theorem splitUntil_append (t : Byte) (pre rest : List Byte) (h : ∀ b ∈ pre, b ≠ t) :
    splitUntil t (pre ++ t :: rest) = (pre, pre.length + 1) := by
  induction pre with
  | nil => simp [splitUntil]
  | cons a pre ih =>
    have ha : a ≠ t := h a (List.mem_cons_self _ _)
    have := ih (fun b hb => h b (List.mem_cons_of_mem _ hb))
    simp [splitUntil, ha, this]

theorem readField {f : File} (pre : List Byte) (x : Int) (rest : List Byte)
    (hc : f.content = pre ++ (fmtLong x ++ 124 :: rest)) (hp : f.pos = pre.length)
    (ho : f.isOpen = true) :
    (f.readStringUntil 124).2 = fmtLong x ∧
    (f.readStringUntil 124).1.content = f.content ∧
    (f.readStringUntil 124).1.pos = pre.length + (fmtLong x).length + 1 ∧
    (f.readStringUntil 124).1.isOpen = true := by
  have hd : f.content.drop pre.length = fmtLong x ++ 124 :: rest := by
    rw [hc, List.drop_left]
  have hs := splitUntil_append 124 (fmtLong x) rest (fmtLong_no_bar x)
  simp only [File.readStringUntil, ho, if_true, hp, hd, hs]
  exact ⟨trivial, trivial, by omega, trivial⟩

theorem recall_header (s : Logger) {a b c d : Int} (rest : List Byte)
    (ho : s.file_buffer.isOpen = true)
    (hc : s.file_buffer.content = fmtHeader a b c d ++ rest)
    (ha1 : LONG_MIN ≤ a) (ha2 : a ≤ LONG_MAX) (hb1 : LONG_MIN ≤ b) (hb2 : b ≤ LONG_MAX)
    (hc1 : LONG_MIN ≤ c) (hc2 : c ≤ LONG_MAX) (hd1 : LONG_MIN ≤ d) (hd2 : d ≤ LONG_MAX) :
    (Logger.recall s).head_index = a ∧ (Logger.recall s).tail_index = b ∧
    (Logger.recall s).file_size = c ∧ (Logger.recall s).pos_free = d ∧
    (Logger.recall s).file_buffer.content = s.file_buffer.content ∧
    (Logger.recall s).file_buffer.isOpen = true := by
  have hs := seek_ok s.file_buffer 0 ho (le_refl _) (by omega) (by norm_num)
  have hs1 : (s.file_buffer.seek 0).1 = { s.file_buffer with pos := 0 } := by rw [hs]; rfl
  obtain ⟨r1a, r1b, r1c, r1d⟩ := readField (f := (s.file_buffer.seek 0).1) [] a
    (fmtLong b ++ 124 :: (fmtLong c ++ 124 :: (fmtLong d ++ 124 :: ([13, 10] ++ rest))))
    (by rw [hs1]; simp only [hc, fmtHeader]; simp) (by rw [hs1]; rfl) (by rw [hs1]; exact ho)
  have hcont : (s.file_buffer.seek 0).1.content = s.file_buffer.content := by rw [hs1]
  obtain ⟨r2a, r2b, r2c, r2d⟩ := readField
    (f := ((s.file_buffer.seek 0).1.readStringUntil 124).1) (fmtLong a ++ [124]) b
    (fmtLong c ++ 124 :: (fmtLong d ++ 124 :: ([13, 10] ++ rest)))
    (by rw [r1b, hcont]; simp only [hc, fmtHeader]; simp) (by rw [r1c]; simp) r1d
  obtain ⟨r3a, r3b, r3c, r3d⟩ := readField
    (f := (((s.file_buffer.seek 0).1.readStringUntil 124).1.readStringUntil 124).1)
    (fmtLong a ++ [124] ++ fmtLong b ++ [124]) c
    (fmtLong d ++ 124 :: ([13, 10] ++ rest))
    (by rw [r2b, r1b, hcont]; simp only [hc, fmtHeader]; simp)
    (by rw [r2c]; simp; omega) r2d
  obtain ⟨r4a, r4b, r4c, r4d⟩ := readField
    (f := ((((s.file_buffer.seek 0).1.readStringUntil 124).1.readStringUntil 124).1.readStringUntil
      124).1)
    (fmtLong a ++ [124] ++ fmtLong b ++ [124] ++ fmtLong c ++ [124]) d ([13, 10] ++ rest)
    (by rw [r3b, r2b, r1b, hcont]; simp only [hc, fmtHeader]; simp)
    (by rw [r3c]; simp; omega) r3d
  simp only [Logger.recall]
  refine ⟨?_, ?_, ?_, ?_, ?_, r4d⟩
  · rw [r1a]; exact toInt_fmtLong ha1 ha2
  · rw [r2a]; exact toInt_fmtLong hb1 hb2
  · rw [r3a]; exact toInt_fmtLong hc1 hc2
  · rw [r4a]; exact toInt_fmtLong hd1 hd2
  · rw [r4b, r3b, r2b, r1b, hcont]

/-! ## Stores that agree on the data region -/

theorem readPos_same {s t : Logger} (h : SameData s t) : readPos s = readPos t := by
  simp only [readPos, h.tail_eq, h.size_eq]

theorem afterRead_same {s t : Logger} (h : SameData s t) : SameData (afterRead s) (afterRead t) := by
  have hr := readPos_same h
  exact ⟨h.head_eq, by simp only [afterRead, hr], h.size_eq, by simp only [afterRead, h.free_eq],
    h.data_eq⟩

theorem dequeueLoop_same (n : Nat) : ∀ (s t : Logger) (data : List Byte), Inv s → Inv t →
    SameData s t → s.file_buffer.pos = s.tail_index.toNat →
    t.file_buffer.pos = t.tail_index.toNat → s.pos_free + n ≤ s.file_size - 64 →
    (dequeueLoop n s data).2 = (dequeueLoop n t data).2 ∧
    SameData (dequeueLoop n s data).1 (dequeueLoop n t data).1 := by
  induction n with
  | zero => intro s t data _ _ h _ _ _; exact ⟨rfl, h⟩
  | succ n ih =>
    intro s t data hs ht h hps hpt hf
    have hfl := hs.free_lo
    have hfs : 64 < s.file_size := by omega
    have hf1 : s.pos_free < s.file_size - 64 := by omega
    have hft : 64 < t.file_size := by rw [← h.size_eq]; exact hfs
    have hf2 : t.pos_free < t.file_size - 64 := by rw [← h.size_eq, ← h.free_eq]; exact hf1
    obtain ⟨b, hb, hstep⟩ := dequeueLoop_succ hs hfs hps hf1 n data
    obtain ⟨b', hb', hstep'⟩ := dequeueLoop_succ ht hft hpt hf2 n data
    have hbb : b = b' := by
      have h64 := (readPos_bounds hs hfs).1
      rw [h.data_eq _ h64, readPos_same h, hb'] at hb
      exact (Option.some.inj hb).symm
    rw [hstep, hstep', hbb]
    exact ih (afterRead s) (afterRead t) _ (afterRead_inv hs hfs hf1) (afterRead_inv ht hft hf2)
      (afterRead_same h) (afterRead_pos s) (afterRead_pos t)
      (by simp only [afterRead]; omega)

theorem afterSeek_same {s t : Logger} (h : SameData s t) : SameData (afterSeek s) (afterSeek t) :=
  ⟨h.head_eq, h.tail_eq, h.size_eq, h.free_eq, h.data_eq⟩

theorem dequeue_same {s t : Logger} (hs : Inv s) (ht : Inv t) (h : SameData s t)
    (data : List Byte) {len : Int} (h0 : 0 ≤ len) :
    (s.dequeue data len).2 = (t.dequeue data len).2 ∧
    SameData (s.dequeue data len).1 (t.dequeue data len).1 := by
  have hn := num_items_eq hs
  have hn' := num_items_eq ht
  have hnn : s.num_items = t.num_items := by rw [hn, hn', h.size_eq, h.free_eq]
  by_cases h1 : len ≤ s.num_items
  · rw [dequeue_ok hs data h0 h1, dequeue_ok ht data h0 (by omega)]
    exact dequeueLoop_same len.toNat (afterSeek s) (afterSeek t) data (afterSeek_inv hs)
      (afterSeek_inv ht) (afterSeek_same h) rfl rfl (by simp only [afterSeek]; omega)
  · rw [dequeue_reject s data (by omega), dequeue_reject t data (by omega)]
    exact ⟨rfl, h⟩

theorem dequeueAll_same (reads : List (List Byte × Int)) : ∀ {s t : Logger}, Inv s → Inv t →
    SameData s t → (∀ r ∈ reads, 0 ≤ r.2) → dequeueAll s reads = dequeueAll t reads := by
  induction reads with
  | nil => intro s t _ _ _ _; rfl
  | cons r reads ih =>
    intro s t hs ht h hr
    obtain ⟨data, len⟩ := r
    have h0 : 0 ≤ len := hr (data, len) (List.mem_cons_self _ _)
    have hd := dequeue_same hs ht h data h0
    simp only [dequeueAll, hd.1]
    rw [ih (dequeue_inv hs data h0).1 (dequeue_inv ht data h0).1 hd.2
      (fun r' hr' => hr r' (List.mem_cons_of_mem _ hr'))]

theorem reopen_destroy {s : Logger} (hi : Inv s) (len : Int) :
    Inv (Logger.reopen s.destroy len) ∧ SameData (Logger.reopen s.destroy len) s := by
  have hr := hi.inRange
  have hcont : s.destroy = fmtHeader s.head_index s.tail_index s.file_size s.pos_free
      ++ s.file_buffer.content.drop
          (fmtHeader s.head_index s.tail_index s.file_size s.pos_free).length := by
    simp only [Logger.destroy, store_ok s hi.isOpen, writeAt, List.take_zero, List.nil_append,
      Nat.zero_add]
  have hre : Logger.reopen s.destroy len = Logger.recall
      { file_buffer := { content := s.destroy, pos := 0, isOpen := true },
        head_index := 0, tail_index := 0, file_size := 0, pos_free := 0 } := by
    simp [Logger.reopen, Logger.new, openFile]
  obtain ⟨g1, g2, g3, g4, g5, g6⟩ := recall_header
    { file_buffer := { content := s.destroy, pos := 0, isOpen := true },
      head_index := 0, tail_index := 0, file_size := 0, pos_free := 0 } _ rfl hcont
    (by simpa [LONG_MIN] using hr.head_lo) (by simpa [LONG_MAX] using hr.head_hi)
    (by simpa [LONG_MIN] using hr.tail_lo) (by simpa [LONG_MAX] using hr.tail_hi)
    (by simpa [LONG_MIN] using hr.size_lo) (by simpa [LONG_MAX] using hr.size_hi)
    (by simpa [LONG_MIN] using hr.free_lo) (by simpa [LONG_MAX] using hr.free_hi)
  rw [hre]
  have hlen : s.destroy.length = s.file_buffer.content.length := store_length hi
  refine ⟨⟨g6, ?_, ?_, ?_, ?_, ?_, ?_, ?_, ?_, ?_⟩, ⟨g1, g2, g3, g4, ?_⟩⟩
  · rw [g3]; exact hi.size_lo
  · rw [g3]; exact hi.size_hi
  · rw [g5, g3]; simp only [hlen]; exact hi.length_eq
  · rw [g1]; exact hi.head_lo
  · rw [g1, g3]; exact hi.head_hi
  · rw [g2]; exact hi.tail_lo
  · rw [g2, g3]; exact hi.tail_hi
  · rw [g4]; exact hi.free_lo
  · rw [g4, g3]; exact hi.free_hi
  · intro i h64
    rw [g5]
    exact store_getElem? hi i h64

/-! ## The header on the file after `store()` -/

theorem store_media_header (s : Logger) (ho : s.file_buffer.isOpen = true) (hr : InRange s) :
    mediaHeader s.store = memoryHeader s := by
  have hcont : s.store.file_buffer.content
      = fmtHeader s.head_index s.tail_index s.file_size s.pos_free
        ++ s.file_buffer.content.drop
            (fmtHeader s.head_index s.tail_index s.file_size s.pos_free).length := by
    simp only [store_ok s ho, writeAt, List.take_zero, List.nil_append, Nat.zero_add]
  have hopen : s.store.file_buffer.isOpen = true := by rw [store_ok s ho]
  obtain ⟨g1, g2, g3, g4, _, _⟩ := recall_header s.store _ hopen hcont
    (by simpa [LONG_MIN] using hr.head_lo) (by simpa [LONG_MAX] using hr.head_hi)
    (by simpa [LONG_MIN] using hr.tail_lo) (by simpa [LONG_MAX] using hr.tail_hi)
    (by simpa [LONG_MIN] using hr.size_lo) (by simpa [LONG_MAX] using hr.size_hi)
    (by simpa [LONG_MIN] using hr.free_lo) (by simpa [LONG_MAX] using hr.free_hi)
  simp only [mediaHeader, memoryHeader, g1, g2, g3, g4]

theorem enqueue_media_header {s : Logger} (hi : Inv s) (data : List Byte) {len : Int}
    (h0 : 0 ≤ len) (h1 : len ≤ s.pos_free) :
    mediaHeader (s.enqueue data len).1 = memoryHeader (s.enqueue data len).1 := by
  by_cases h2 : len ≤ s.file_size - s.head_index
  · rw [enqueue_single hi data h0 h1 h2]
    have hx := enqueueSingle_inv hi data h0 h1 h2
    exact store_media_header _ hx.isOpen hx.inRange
  · rw [enqueue_wrap hi data h1 (by omega)]
    have hx := enqueueWrapped_inv hi data h1 (by omega)
    exact store_media_header _ hx.isOpen hx.inRange

/-! ## Construction with an undersized request -/

theorem create_fields (total_size : Int) :
    (Logger.create total_size).file_buffer.isOpen = true ∧
    (Logger.create total_size).head_index = 64 ∧
    (Logger.create total_size).tail_index = 64 ∧
    (Logger.create total_size).file_size = total_size ∧
    (Logger.create total_size).pos_free = wrapLong (total_size - 64) := by
  have hp : ∀ (n : Nat) (f : File), f.isOpen = true → (File.printSpaces n f).isOpen = true := by
    intro n
    induction n with
    | zero => intro f hf; exact hf
    | succ n ih =>
      intro f hf
      simp only [File.printSpaces]
      apply ih
      rw [printText_ok f _ hf]
  have ho : (File.printSpaces total_size.toNat
      { content := [], pos := 0, isOpen := true }).isOpen = true := hp _ _ rfl
  simp only [Logger.create, Logger.new, openFile, if_true, Option.getD_none, Bool.true_eq_false,
    if_false, jump_header]
  refine ⟨?_, rfl, rfl, rfl, rfl⟩
  rw [store_ok _ ho]

/-! ## Recovery from a file without digits -/

theorem parseDigits_no_digit (l : List Byte) (h : ∀ b ∈ l, isDigit b = false) :
    parseDigits 0 l = 0 := by
  cases l with
  | nil => rfl
  | cons b rest => simp [parseDigits, h b (List.mem_cons_self _ _)]

theorem toInt_no_digit (l : List Byte) (h : ∀ b ∈ l, isDigit b = false) : toInt l = 0 := by
  have hsub : ∀ b ∈ l.dropWhile isSpace, isDigit b = false :=
    fun b hb => h b ((List.dropWhile_sublist isSpace).subset hb)
  have hz : clampLong 0 = 0 := by decide
  unfold toInt
  split
  · rfl
  · rename_i c rest heq
    rw [heq] at hsub
    have hrest : parseDigits 0 rest = 0 :=
      parseDigits_no_digit rest (fun b hb => hsub b (List.mem_cons_of_mem _ hb))
    have hall : parseDigits 0 (c :: rest) = 0 := parseDigits_no_digit _ hsub
    simp only [hrest, hall]
    split_ifs <;> simpa using hz

theorem splitUntil_subset (t : Byte) (l : List Byte) : ∀ b ∈ (splitUntil t l).1, b ∈ l := by
  induction l with
  | nil => intro b hb; simp [splitUntil] at hb
  | cons a l ih =>
    intro b hb
    unfold splitUntil at hb
    split at hb
    · simp at hb
    · simp only [List.mem_cons] at hb ⊢
      rcases hb with hb | hb
      · exact Or.inl hb
      · exact Or.inr (ih b hb)

theorem readStringUntil_no_digit (f : File) (t : Byte)
    (h : ∀ b ∈ f.content, isDigit b = false) :
    toInt (f.readStringUntil t).2 = 0 ∧ (f.readStringUntil t).1.content = f.content ∧
    (f.readStringUntil t).1.isOpen = f.isOpen := by
  unfold File.readStringUntil
  split
  · refine ⟨toInt_no_digit _ ?_, rfl, rfl⟩
    intro b hb
    exact h b (List.mem_of_mem_drop (splitUntil_subset t _ b hb))
  · exact ⟨rfl, rfl, rfl⟩

theorem seek_content (f : File) (off : Int) :
    (f.seek off).1.content = f.content ∧ (f.seek off).1.isOpen = f.isOpen := by
  unfold File.seek
  split <;> exact ⟨rfl, rfl⟩

theorem recall_no_digit (s : Logger) (h : ∀ b ∈ s.file_buffer.content, isDigit b = false) :
    memoryHeader (Logger.recall s) = (0, 0, 0, 0) ∧
    (Logger.recall s).file_buffer.isOpen = s.file_buffer.isOpen := by
  obtain ⟨k1, k2⟩ := seek_content s.file_buffer 0
  obtain ⟨a1, a2, a3⟩ := readStringUntil_no_digit (s.file_buffer.seek 0).1 124 (by rw [k1]; exact h)
  obtain ⟨b1, b2, b3⟩ := readStringUntil_no_digit ((s.file_buffer.seek 0).1.readStringUntil 124).1
    124 (by rw [a2, k1]; exact h)
  obtain ⟨c1, c2, c3⟩ := readStringUntil_no_digit
    (((s.file_buffer.seek 0).1.readStringUntil 124).1.readStringUntil 124).1
    124 (by rw [b2, a2, k1]; exact h)
  obtain ⟨d1, d2, d3⟩ := readStringUntil_no_digit
    ((((s.file_buffer.seek 0).1.readStringUntil 124).1.readStringUntil 124).1.readStringUntil 124).1
    124 (by rw [c2, b2, a2, k1]; exact h)
  simp only [memoryHeader, Logger.recall, a1, b1, c1, d1, true_and]
  rw [d3, c3, b3, a3, k2]

theorem enqueue_false_iff (s : Logger) (data : List Byte) (len : Int) :
    (s.enqueue data len).2 = false ↔ len > s.free_space := by
  unfold Logger.enqueue Logger.free_space
  by_cases h : s.pos_free ≥ len
  · rw [if_pos h]
    simp only [Bool.true_eq_false, false_iff]
    omega
  · rw [if_neg h]
    simp only [true_iff]
    omega

/-! ## `enqueue` on any store with an open, long enough file -/

theorem enqueue_single_gen {s : Logger} (ho : s.file_buffer.isOpen = true) (hr : InRange s)
    (hh0 : 0 ≤ s.head_index) (hh : s.head_index ≤ (s.file_buffer.content.length : Int))
    (data : List Byte) {len : Int} (h0 : 0 ≤ len) (h1 : len ≤ s.pos_free)
    (h2 : len ≤ s.file_size - s.head_index) :
    s.enqueue data len = ((enqueueSingle s data len).store, true) := by
  obtain ⟨⟨cs, p, o⟩, hd, tl, fs, pf⟩ := s
  obtain ⟨_, _, _, _, _, _, _, _⟩ := hr
  simp only at *
  subst ho
  have e1 : wrapLong (fs - hd) = fs - hd := wrapLong_eq (by omega) (by omega)
  have e2 : wrapLong (hd + len) = hd + len := wrapLong_eq (by omega) (by omega)
  have e3 : wrapLong (pf - len) = pf - len := wrapLong_eq (by omega) (by omega)
  have e4 : toSizeT len = len.toNat := toSizeT_eq h0 (by omega)
  simp only [Logger.enqueue, enqueueSingle, e1, e2, e3, e4,
    if_pos (by omega : pf ≥ len), if_pos (by omega : fs - hd ≥ len),
    seek_mk cs p hd (by omega) (by omega) (by omega), write_mk]

theorem enqueue_wrap_gen {s : Logger} (ho : s.file_buffer.isOpen = true) (hr : InRange s)
    (hh0 : 64 ≤ s.head_index) (hh1 : s.head_index ≤ s.file_size)
    (hl : s.file_size ≤ (s.file_buffer.content.length : Int))
    (data : List Byte) {len : Int} (h1 : len ≤ s.pos_free)
    (h2 : s.file_size - s.head_index < len) :
    s.enqueue data len = ((enqueueWrapped s data len).store, true) := by
  obtain ⟨⟨cs, p, o⟩, hd, tl, fs, pf⟩ := s
  obtain ⟨_, _, _, _, _, _, _, _⟩ := hr
  simp only at *
  subst ho
  have e1 : wrapLong (fs - hd) = fs - hd := wrapLong_eq (by omega) (by omega)
  have e3 : wrapLong (pf - len) = pf - len := wrapLong_eq (by omega) (by omega)
  have e4 : toSizeT (fs - hd) = (fs - hd).toNat := toSizeT_eq (by omega) (by omega)
  have hd1 : ((data.take (fs - hd).toNat).length : Int) ≤ fs - hd := by
    simp only [List.length_take]; omega
  have e5 : wrapLong (len - (data.take (fs - hd).toNat).length)
      = len - (data.take (fs - hd).toNat).length := wrapLong_eq (by omega) (by omega)
  have e6 : toSizeT (len - (data.take (fs - hd).toNat).length)
      = (len - (data.take (fs - hd).toNat).length).toNat := toSizeT_eq (by omega) (by omega)
  have hlen : (writeAt cs hd.toNat (data.take (fs - hd).toNat)).length = cs.length := by
    apply writeAt_length
    simp only [List.length_take]; omega
  have hj : jump_header.toNat = 64 := rfl
  have hs3 := seek_mk (writeAt cs hd.toNat (data.take (fs - hd).toNat))
    (hd.toNat + (data.take (fs - hd).toNat).length) jump_header (by simp [jump_header])
    (by simp only [hlen, jump_header]; omega) (by simp [jump_header])
  simp only [Logger.enqueue, enqueueWrapped, e1, e3, e4, e5, e6, Int.toNat_ofNat,
    if_pos (by omega : pf ≥ len), if_neg (by omega : ¬ fs - hd ≥ len),
    seek_mk cs _ hd (by omega) (by omega) (by omega), write_mk, hs3, hj]
  rfl

theorem store_getElem?_gen (s : Logger) (hr : InRange s) (i : Nat) (h : 64 ≤ i) :
    s.store.file_buffer.content[i]? = s.file_buffer.content[i]? := by
  have hh := header_length_le s hr
  by_cases ho : s.file_buffer.isOpen = true
  · rw [store_ok s ho]
    simp only
    rw [writeAt_getElem? _ _ _ _ (Nat.zero_le _), if_neg (by omega), if_neg (by omega)]
  · simp [Logger.store, File.seek, File.printText, File.write, ho]

theorem enqueueSingle_frame (s : Logger) (data : List Byte) (len : Int)
    (hh : s.head_index ≤ (s.file_buffer.content.length : Int)) (hh0 : 0 ≤ s.head_index)
    (h0 : 0 ≤ len) (h2 : s.head_index + len ≤ (s.file_buffer.content.length : Int)) :
    (enqueueSingle s data len).file_buffer.content.length = s.file_buffer.content.length ∧
    (∀ i : Nat, ((i : Int) < s.head_index ∨ s.head_index + len ≤ i) →
      (enqueueSingle s data len).file_buffer.content[i]? = s.file_buffer.content[i]?) ∧
    (∀ i : Nat, i < len.toNat → i < data.length →
      (enqueueSingle s data len).file_buffer.content[s.head_index.toNat + i]? = data[i]?) := by
  have hlt : (data.take len.toNat).length ≤ len.toNat := by simp only [List.length_take]; omega
  refine ⟨?_, ?_, ?_⟩
  · simp only [enqueueSingle]
    exact writeAt_length _ _ _ (by omega)
  · intro i hi
    simp only [enqueueSingle]
    rw [writeAt_getElem? _ _ _ _ (by omega)]
    by_cases h1 : i < s.head_index.toNat
    · rw [if_pos h1]
    · rw [if_neg h1, if_neg (by omega)]
  · intro i hi hid
    simp only [enqueueSingle]
    rw [writeAt_getElem? _ _ _ _ (by omega), if_neg (by omega),
      if_pos (by simp only [List.length_take]; omega)]
    simp only [Nat.add_sub_cancel_left, List.getElem?_take, hi, if_true]

theorem enqueueWrapped_frame (s : Logger) (data : List Byte) (len : Int)
    (hh0 : 64 ≤ s.head_index) (hh1 : s.head_index ≤ s.file_size)
    (hl : s.file_size ≤ (s.file_buffer.content.length : Int))
    (h1 : len ≤ s.file_size - 64) :
    (enqueueWrapped s data len).file_buffer.content.length = s.file_buffer.content.length ∧
    (∀ i : Nat, (i < 64 ∨ s.file_size ≤ (i : Int)) →
      (enqueueWrapped s data len).file_buffer.content[i]? = s.file_buffer.content[i]?) := by
  have hw1 : (writeAt s.file_buffer.content s.head_index.toNat
      (data.take (s.file_size - s.head_index).toNat)).length = s.file_buffer.content.length := by
    apply writeAt_length
    simp only [List.length_take]; omega
  have hseg2 : ((data.drop (data.take (s.file_size - s.head_index).toNat).length).take
        (len - (data.take (s.file_size - s.head_index).toNat).length).toNat).length
        ≤ (s.file_size - 64).toNat := by
    simp only [List.length_take, List.length_drop]; omega
  refine ⟨?_, ?_⟩
  · simp only [enqueueWrapped]
    rw [writeAt_length _ _ _ (by rw [hw1]; omega), hw1]
  · intro i hi
    simp only [enqueueWrapped]
    rw [writeAt_getElem? _ _ _ _ (by rw [hw1]; omega)]
    have hin : (writeAt s.file_buffer.content s.head_index.toNat
        (data.take (s.file_size - s.head_index).toNat))[i]? = s.file_buffer.content[i]? := by
      rw [writeAt_getElem? _ _ _ _ (by omega)]
      by_cases h1 : i < s.head_index.toNat
      · rw [if_pos h1]
      · rw [if_neg h1, if_neg (by simp only [List.length_take]; omega)]
    by_cases h64 : i < 64
    · rw [if_pos h64, hin]
    · rw [if_neg h64, if_neg (by omega), hin]

/-! ## The read loop on any store with an open, long enough file -/

theorem readPos_eq_ringOffset {s : Logger} (hi : ReadInv s) : readPos s = ringOffset s 0 := by
  have := hi.tail_lo; have := hi.tail_hi; have := hi.size_lo
  simp only [readPos, ringOffset, Nat.cast_zero, add_zero]
  by_cases ht : s.tail_index = s.file_size
  · rw [if_pos ht, ht, Int.emod_self]; rfl
  · rw [if_neg ht, Int.emod_eq_of_lt (by omega) (by omega)]
    omega

theorem ringOffset_bounds {s : Logger} (hi : ReadInv s) (i : Nat) :
    64 ≤ ringOffset s i ∧ (ringOffset s i : Int) < s.file_size := by
  have := hi.size_lo
  have h1 := Int.emod_nonneg (s.tail_index - 64 + i) (by omega : s.file_size - 64 ≠ 0)
  have h2 := Int.emod_lt_of_pos (s.tail_index - 64 + i) (by omega : 0 < s.file_size - 64)
  simp only [ringOffset]
  omega

theorem ringOffset_afterRead {s : Logger} (hi : ReadInv s) (i : Nat) :
    ringOffset (afterRead s) i = ringOffset s (i + 1) := by
  have hb := ringOffset_bounds hi 0
  have hr := readPos_eq_ringOffset hi
  have h0 : ((ringOffset s 0 : Nat) : Int) = 64 + (s.tail_index - 64) % (s.file_size - 64) := by
    have h1 := Int.emod_nonneg (s.tail_index - 64) (by have := hi.size_lo; omega :
      s.file_size - 64 ≠ 0)
    simp only [ringOffset, Nat.cast_zero, add_zero]
    omega
  have ht : (afterRead s).tail_index - 64 + i
      = (s.tail_index - 64) % (s.file_size - 64) + (1 + i) := by
    simp only [afterRead, hr, h0]; omega
  have hfs : (afterRead s).file_size = s.file_size := rfl
  simp only [ringOffset, hfs]
  rw [ht, Int.emod_add_emod]
  push_cast
  congr 3
  omega

theorem afterRead_readInv {s : Logger} (hi : ReadInv s) : ReadInv (afterRead s) := by
  have hb := ringOffset_bounds hi 0
  have hr := readPos_eq_ringOffset hi
  obtain ⟨ho, h1, h2, hl, _, _, _⟩ := hi
  refine ⟨ho, h1, h2, hl, ?_, ?_, ?_⟩ <;> simp only [afterRead, hr] <;> omega

theorem dequeue_step_gen {s : Logger} (hi : ReadInv s)
    (hp : s.file_buffer.pos = s.tail_index.toNat) (hf : s.pos_free < 2147483647)
    (n : Nat) (data : List Byte) :
    ∃ b, s.file_buffer.content[readPos s]? = some b ∧
      dequeueLoop (n + 1) s data = dequeueLoop n (afterRead s) (data.set 0 b) ∧
      dequeueTrace (n + 1) s = (readPos s, (b.val : Int)) :: dequeueTrace n (afterRead s) := by
  have hb := ringOffset_bounds hi 0
  rw [← readPos_eq_ringOffset hi] at hb
  obtain ⟨⟨cs, p, o⟩, hd, tl, fs, pf⟩ := s
  obtain ⟨ho, _, _, hl, _, _, _⟩ := hi
  simp only at *
  subst ho
  subst hp
  have hlt : readPos ⟨⟨cs, tl.toNat, true⟩, hd, tl, fs, pf⟩ < cs.length := by omega
  refine ⟨cs[readPos ⟨⟨cs, tl.toNat, true⟩, hd, tl, fs, pf⟩], List.getElem?_eq_getElem hlt, ?_⟩
  have e1 : wrapLong (pf + 1) = pf + 1 := wrapLong_eq (by omega) (by omega)
  by_cases ht : tl = fs
  · subst ht
    have hr : readPos ⟨⟨cs, tl.toNat, true⟩, hd, tl, tl, pf⟩ = 64 := by simp [readPos]
    have h64 : (64 : Nat) < cs.length := by omega
    simp only [hr] at hlt ⊢
    have hs := seek_mk cs tl.toNat jump_header (by simp [jump_header])
      (by simp only [jump_header]; omega) (by simp [jump_header])
    have hj : jump_header.toNat = 64 := rfl
    have hne : ¬ jump_header = tl := by simp only [jump_header]; omega
    have hw : wrapLong (jump_header + 1) = 65 := by
      rw [wrapLong_eq] <;> simp [jump_header]
    have hnn : ¬ ((cs[64].val : Int) = -1) := by omega
    constructor
    · simp only [dequeueLoop, afterRead, if_true, hs, hj, File.read, List.getElem?_eq_getElem h64,
        hnn, if_false, e1, hne, hw, toUInt8_val, hr]
      rfl
    · simp only [dequeueTrace, afterRead, if_true, hs, hj, File.read,
        List.getElem?_eq_getElem h64, hnn, if_false, e1, hne, hw, hr]
      rfl
  · have hr : readPos ⟨⟨cs, tl.toNat, true⟩, hd, tl, fs, pf⟩ = tl.toNat := by simp [readPos, ht]
    simp only [hr] at hlt ⊢
    have hw : wrapLong (tl + 1) = tl + 1 := wrapLong_eq (by omega) (by omega)
    have hnn : ¬ ((cs[tl.toNat].val : Int) = -1) := by omega
    have hc : ((tl.toNat : Nat) : Int) = tl := by omega
    constructor
    · simp only [dequeueLoop, afterRead, ht, if_false, File.read, List.getElem?_eq_getElem hlt,
        hnn, e1, hw, toUInt8_val, hr, hc, if_true]
    · simp only [dequeueTrace, afterRead, ht, if_false, File.read, List.getElem?_eq_getElem hlt,
        hnn, e1, hw, hr, hc, if_true]

theorem dequeue_run_gen (n : Nat) : ∀ (s : Logger) (data : List Byte), ReadInv s →
    s.file_buffer.pos = s.tail_index.toNat → s.pos_free + n ≤ 2147483647 →
    (dequeueLoop n s data).2.2 = true ∧
    (dequeueLoop n s data).1.head_index = s.head_index ∧
    (dequeueLoop n s data).1.file_size = s.file_size ∧
    (dequeueLoop n s data).1.pos_free = s.pos_free + n ∧
    (dequeueLoop n s data).1.file_buffer.content = s.file_buffer.content ∧
    (dequeueLoop n s data).1.tail_index
      = (if n = 0 then s.tail_index else (ringOffset s (n - 1) : Int) + 1) ∧
    dequeueTrace n s = (List.range n).map
      (fun i => (ringOffset s i, ((s.file_buffer.content.getD (ringOffset s i) 0).val : Int))) := by
  induction n with
  | zero => intro s data _ _ _; simp [dequeueLoop, dequeueTrace]
  | succ n ih =>
    intro s data hi hp hf
    obtain ⟨b, hb, hloop, htrace⟩ := dequeue_step_gen hi hp (by omega) n data
    obtain ⟨g1, g2, g3, g4, g5, g6, g7⟩ := ih (afterRead s) (data.set 0 b) (afterRead_readInv hi)
      (afterRead_pos s) (by simp only [afterRead]; push_cast at hf; omega)
    have hr := readPos_eq_ringOffset hi
    rw [hloop, htrace]
    refine ⟨g1, g2, g3, ?_, g5, ?_, ?_⟩
    · rw [g4]; simp only [afterRead]; push_cast; omega
    · rw [g6, if_neg (Nat.succ_ne_zero n)]
      cases n with
      | zero => simp only [if_true, afterRead, hr]
      | succ m =>
        rw [if_neg (Nat.succ_ne_zero m)]
        simp only [Nat.add_sub_cancel, ringOffset_afterRead hi]
    · rw [g7, List.range_succ_eq_map, List.map_cons, List.map_map]
      have hcont : (afterRead s).file_buffer.content = s.file_buffer.content := rfl
      have hget : s.file_buffer.content.getD (ringOffset s 0) 0 = b := by
        rw [← hr, List.getD_eq_getElem?_getD, hb]; rfl
      rw [← hr] at hget ⊢
      congr 1
      · rw [hget]
      · apply List.map_congr_left
        intro i _
        simp only [Function.comp, hcont, ringOffset_afterRead hi]

theorem free_plus_len_le {s : Logger} (hr : InRange s) (hs : 64 ≤ s.file_size) {len : Int}
    (h0 : 0 ≤ len) (h1 : len ≤ s.num_items) :
    s.pos_free + len ≤ 2147483647 ∧ len ≤ 2147483647 ∧
    (1 ≤ len → s.pos_free + len ≤ s.file_size - 64) := by
  obtain ⟨_, _, _, _, _, _, _, _⟩ := hr
  simp only [Logger.num_items, wrapLong, jump_header] at h1
  omega

theorem afterSeek_readInv {s : Logger} (ho : s.file_buffer.isOpen = true) (hr : InRange s)
    (h1 : 64 < s.file_size) (h2 : 64 ≤ s.tail_index) (h3 : s.tail_index ≤ s.file_size)
    (h4 : s.file_size ≤ (s.file_buffer.content.length : Int)) : ReadInv (afterSeek s) :=
  ⟨ho, h1, hr.size_hi, h4, h2, h3, hr.free_lo⟩

theorem dequeue_ok_gen {s : Logger} (ho : s.file_buffer.isOpen = true) (hr : InRange s)
    (h1 : 64 ≤ s.file_size) (h2 : 0 ≤ s.tail_index) (h3 : s.tail_index ≤ s.file_size)
    (h4 : s.file_size ≤ (s.file_buffer.content.length : Int))
    (data : List Byte) {len : Int} (h5 : 0 ≤ len) (h6 : len ≤ s.num_items) :
    s.dequeue data len = dequeueLoop len.toNat (afterSeek s) data ∧
    s.dequeueTrace len = dequeueTrace len.toNat (afterSeek s) := by
  have hb := free_plus_len_le hr h1 h5 h6
  have := hr.size_hi
  have e : toSizeT len = len.toNat := toSizeT_eq h5 (by omega)
  unfold Logger.dequeue Logger.dequeueTrace
  rw [if_pos (by omega : s.num_items ≥ len), if_pos (by omega : s.num_items ≥ len), e,
    seek_ok s.file_buffer s.tail_index ho (by omega) (by omega) (by omega)]
  exact ⟨rfl, rfl⟩

/-! ## The list of reads and the loop take the same course -/

theorem dequeueLoop_fails_iff (n : Nat) : ∀ (s : Logger) (data : List Byte),
    (dequeueLoop n s data).2.2 = false ↔ ∃ pr ∈ dequeueTrace n s, pr.2 = -1 := by
  induction n with
  | zero => intro s data; simp [dequeueLoop, dequeueTrace]
  | succ n ih =>
    intro s data
    simp only [dequeueLoop, dequeueTrace]
    split_ifs with h1 h2 h3 h4 <;>
      first
        | (rw [ih]; simp_all)
        | simp_all

/-! ## The claims -/

set_option maxRecDepth 100000

/-- C1: on a store newly created by `Logger(name, total_size)` with
`total_size > 64` (a value of type `long`), the calls `enqueue(&b, 1)` for the
bytes of any sequence `bs` of at most `total_size - 64` bytes all return true,
and the following `bs.length` calls `dequeue(out, 1)` all return true and leave
the bytes of `bs` in `out`, one by one in the order they were enqueued. -/
theorem fifo_order_fresh (total_size : Int) (bs : List Byte) (o : Byte)
    (h1 : 64 < total_size) (h2 : total_size ≤ LONG_MAX)
    (h3 : (bs.length : Int) ≤ total_size - 64) :
    (enqueueEach (Logger.create total_size) bs).2 = List.replicate bs.length true ∧
    dequeueEach bs.length (enqueueEach (Logger.create total_size) bs).1 o
      = bs.map (fun b => ([b], true)) := by
  simp only [LONG_MAX] at h2
  have hc := create_inv (le_of_lt h1) h2
  have hfs := create_file_size (le_of_lt h1) h2
  have hhead : (Logger.create total_size).head_index = 64 + (([] : List Byte).length : Nat) := by
    rw [create_eq (le_of_lt h1) h2]; rfl
  have htail : (Logger.create total_size).tail_index = 64 := by
    rw [create_eq (le_of_lt h1) h2]; rfl
  have hfree : (Logger.create total_size).pos_free
      = (Logger.create total_size).file_size - 64 - (([] : List Byte).length : Nat) := by
    rw [create_eq (le_of_lt h1) h2]
    show total_size - 64 = total_size - 64 - ((0 : Nat) : Int)
    omega
  obtain ⟨k1, k2, k3, k4, k5, k6⟩ := enqueueEach_filled bs (Logger.create total_size) [] hc
    hhead htail hfree (fun i hi => absurd hi (Nat.not_lt_zero i))
    (by rw [hfs]; simp only [List.length_nil]; push_cast; omega)
  simp only [List.nil_append] at k5 k6
  refine ⟨k1, ?_⟩
  have h := dequeueEach_draining bs o bs.length (enqueueEach (Logger.create total_size) bs).1 0
    k2 (by rw [k3]; rfl) (by omega) (by rw [k5, k4]; rfl) (by rw [k4, hfs]; exact h3) k6
  rw [h]; rfl

theorem fifo_order_fresh_witness :
    (enqueueEach (Logger.create 67) [10, 20, 30]).2 = List.replicate 3 true ∧
    dequeueEach 3 (enqueueEach (Logger.create 67) [10, 20, 30]).1 0
      = [([10], true), ([20], true), ([30], true)] :=
  fifo_order_fresh 67 [10, 20, 30] 0 (by decide) (by decide) (by decide)

/-- C2, the code at a failing input: on a store created with
`total_size = 66`, `enqueue({1,2}, 2)`, two `dequeue(out, 1)`,
`enqueue({3}, 1)` (which wraps and leaves `head_index` at 64),
`enqueue({4}, 1)` (which overwrites the unread byte 3 at offset 64) and a last
`dequeue(out, 1)` deliver 1, 2, 4 while 1, 2, 3, 4 were accepted: the
delivered bytes are not a prefix of the accepted ones. -/
theorem wraparound_overwrites_unread_byte :
    accepted (Logger.create 66)
      [Op.enqueue [1, 2] 2, Op.dequeue [0] 1, Op.dequeue [0] 1, Op.enqueue [3] 1,
       Op.enqueue [4] 1, Op.dequeue [0] 1] = [1, 2, 3, 4] ∧
    delivered (Logger.create 66)
      [Op.enqueue [1, 2] 2, Op.dequeue [0] 1, Op.dequeue [0] 1, Op.enqueue [3] 1,
       Op.enqueue [4] 1, Op.dequeue [0] 1] = [1, 2, 4] ∧
    ((Logger.create 66).run
      [Op.enqueue [1, 2] 2, Op.dequeue [0] 1, Op.dequeue [0] 1, Op.enqueue [3] 1]).head_index
      = 64 ∧
    ¬ (delivered (Logger.create 66)
        [Op.enqueue [1, 2] 2, Op.dequeue [0] 1, Op.dequeue [0] 1, Op.enqueue [3] 1,
         Op.enqueue [4] 1, Op.dequeue [0] 1] <+:
       accepted (Logger.create 66)
        [Op.enqueue [1, 2] 2, Op.dequeue [0] 1, Op.dequeue [0] 1, Op.enqueue [3] 1,
         Op.enqueue [4] 1, Op.dequeue [0] 1]) := by
  decide

/-- C3, the code at a failing input: with the bytes 1, 2 queued,
`dequeue(data, 2)` on the array `{0, 0}` returns true and leaves `{2, 0}`:
both bytes went through `data[0]`, and `data[1]` was never written. -/
theorem dequeue_overwrites_first_slot :
    (((Logger.create 66).enqueue [1, 2] 2).1.dequeue [0, 0] 2).2 = ([2, 0], true) := by
  decide

/-- C4: `enqueue(data, len)` returns false exactly when `len > free_space()`,
and a call that returns false leaves the whole state as it was: the four
fields and the backing file, header region included. -/
theorem enqueue_rejects_atomically (s : Logger) (data : List Byte) (len : Int) :
    ((s.enqueue data len).2 = false ↔ len > s.free_space) ∧
    ((s.enqueue data len).2 = false → (s.enqueue data len).1 = s) := by
  unfold Logger.enqueue Logger.free_space
  by_cases h : s.pos_free ≥ len
  · rw [if_pos h]
    simp only [Bool.true_eq_false, false_iff, false_implies, and_true]
    omega
  · rw [if_neg h]
    simp only [true_iff, true_implies, and_true]
    omega

/-- C5: when `len > num_items()`, `dequeue(data, len)` returns false and leaves
the four fields, the backing file and the output array as they were. -/
theorem dequeue_rejects_atomically (s : Logger) (data : List Byte) (len : Int)
    (h : len > s.num_items) : s.dequeue data len = (s, data, false) :=
  dequeue_reject s data h

theorem dequeue_rejects_atomically_witness :
    (1 : Int) > (Logger.create 65).num_items ∧
    (Logger.create 65).dequeue [0] 1 = (Logger.create 65, [0], false) :=
  ⟨by decide, dequeue_rejects_atomically (Logger.create 65) [0] 1 (by decide)⟩

/-- C6, counterexample: on a store created with `total_size = 65`, one call
`enqueue(data, 1)` leaves `head_index == 65 == total_size`, so
`head_index < total_size` fails. -/
theorem index_bounds_strict_fails :
    ¬ ((64 ≤ ((Logger.create 65).run [Op.enqueue [7] 1]).head_index ∧
        ((Logger.create 65).run [Op.enqueue [7] 1]).head_index < 65) ∧
       (64 ≤ ((Logger.create 65).run [Op.enqueue [7] 1]).tail_index ∧
        ((Logger.create 65).run [Op.enqueue [7] 1]).tail_index < 65)) := by
  decide

/-- C6, amended: in every state reachable from a store created with
`total_size > 64` by `enqueue` and `dequeue` calls with `len >= 0`, both
indices lie in `[64, total_size]`, the upper bound included. -/
theorem index_bounds (total_size : Int) (ops : List Op) (h1 : 64 < total_size)
    (h2 : total_size ≤ LONG_MAX) (h3 : ∀ op ∈ ops, 0 ≤ op.len) :
    (64 ≤ ((Logger.create total_size).run ops).head_index ∧
      ((Logger.create total_size).run ops).head_index ≤ total_size) ∧
    (64 ≤ ((Logger.create total_size).run ops).tail_index ∧
      ((Logger.create total_size).run ops).tail_index ≤ total_size) := by
  simp only [LONG_MAX] at h2
  have h := run_inv ops (create_inv (by omega) h2) h3
  have hs := h.2.trans (create_file_size (by omega) h2)
  have hi := h.1
  have := hi.head_hi
  have := hi.tail_hi
  exact ⟨⟨hi.head_lo, by omega⟩, ⟨hi.tail_lo, by omega⟩⟩

theorem index_bounds_witness :
    (64 ≤ ((Logger.create 65).run [Op.enqueue [7] 1]).head_index ∧
      ((Logger.create 65).run [Op.enqueue [7] 1]).head_index ≤ 65) ∧
    (64 ≤ ((Logger.create 65).run [Op.enqueue [7] 1]).tail_index ∧
      ((Logger.create 65).run [Op.enqueue [7] 1]).tail_index ≤ 65) :=
  index_bounds 65 [Op.enqueue [7] 1] (by decide) (by decide) (by decide)

/-- C7: in every state reachable from a store created with `total_size >= 64`
by `enqueue` and `dequeue` calls with `len >= 0`, successful or not,
`num_items() + free_space() == total_size - 64`, and both `free_space()` and
`num_items()` lie in `[0, total_size - 64]`. -/
theorem occupancy_accounting (total_size : Int) (ops : List Op) (h1 : 64 ≤ total_size)
    (h2 : total_size ≤ LONG_MAX) (h3 : ∀ op ∈ ops, 0 ≤ op.len) :
    ((Logger.create total_size).run ops).num_items
        + ((Logger.create total_size).run ops).free_space = total_size - 64 ∧
    0 ≤ ((Logger.create total_size).run ops).free_space ∧
    ((Logger.create total_size).run ops).free_space ≤ total_size - 64 ∧
    0 ≤ ((Logger.create total_size).run ops).num_items ∧
    ((Logger.create total_size).run ops).num_items ≤ total_size - 64 := by
  simp only [LONG_MAX] at h2
  have h := run_inv ops (create_inv h1 h2) h3
  have hs := h.2.trans (create_file_size h1 h2)
  have hi := h.1
  have hn := num_items_eq hi
  have := hi.free_lo
  have := hi.free_hi
  simp only [Logger.free_space]
  omega

theorem occupancy_accounting_witness :
    ((Logger.create 66).run [Op.enqueue [7] 1, Op.dequeue [0] 5, Op.enqueue [8, 9] 2]).num_items
        + ((Logger.create 66).run
            [Op.enqueue [7] 1, Op.dequeue [0] 5, Op.enqueue [8, 9] 2]).free_space = 66 - 64 ∧
    0 ≤ ((Logger.create 66).run
            [Op.enqueue [7] 1, Op.dequeue [0] 5, Op.enqueue [8, 9] 2]).free_space ∧
    ((Logger.create 66).run
            [Op.enqueue [7] 1, Op.dequeue [0] 5, Op.enqueue [8, 9] 2]).free_space ≤ 66 - 64 ∧
    0 ≤ ((Logger.create 66).run
            [Op.enqueue [7] 1, Op.dequeue [0] 5, Op.enqueue [8, 9] 2]).num_items ∧
    ((Logger.create 66).run
            [Op.enqueue [7] 1, Op.dequeue [0] 5, Op.enqueue [8, 9] 2]).num_items ≤ 66 - 64 :=
  occupancy_accounting 66 [Op.enqueue [7] 1, Op.dequeue [0] 5, Op.enqueue [8, 9] 2]
    (by decide) (by decide) (by decide)

/-- C8, counterexample: on a store created with `total_size = 65`, after
`enqueue`, `dequeue`, `enqueue`, `dequeue` of one byte each the buffer is
empty (`num_items() == 0`) while `head_index == 64` and `tail_index == 65`, so
`is_empty()` answers false. -/
theorem is_empty_disagrees_with_num_items :
    ¬ (((Logger.create 65).run
          [Op.enqueue [7] 1, Op.dequeue [0] 1, Op.enqueue [8] 1, Op.dequeue [0] 1]).is_empty
        = true ↔
       ((Logger.create 65).run
          [Op.enqueue [7] 1, Op.dequeue [0] 1, Op.enqueue [8] 1, Op.dequeue [0] 1]).num_items
        = 0) := by
  decide

/-- C8, amended: in every state reachable from a freshly created store
(`total_size > 64`) by `enqueue` and `dequeue` calls with `len >= 0` of which no
`enqueue` takes the wraparound branch (every accepted `enqueue` fits between
`head_index` and the end of the file), `is_empty()` returns true, that is
`head_index == tail_index`, if and only if `num_items() == 0`. -/
theorem is_empty_iff_no_items (total_size : Int) (ops : List Op) (h1 : 64 < total_size)
    (h2 : total_size ≤ LONG_MAX) (h3 : ∀ op ∈ ops, 0 ≤ op.len)
    (h4 : neverWraps (Logger.create total_size) ops = true) :
    ((Logger.create total_size).run ops).is_empty = true ↔
      ((Logger.create total_size).run ops).num_items = 0 := by
  simp only [LONG_MAX] at h2
  have hc := create_inv (le_of_lt h1) h2
  have hl0 : (Logger.create total_size).head_index - (Logger.create total_size).tail_index
      = (Logger.create total_size).file_size - (Logger.create total_size).pos_free - 64 := by
    rw [create_eq (le_of_lt h1) h2]
    show (64 : Int) - 64 = total_size - (total_size - 64) - 64
    omega
  have hl := run_linear ops hc hl0 h3 h4
  have hn := num_items_eq (run_inv ops hc h3).1
  simp only [Logger.is_empty, decide_eq_true_eq]
  omega

theorem is_empty_iff_no_items_witness :
    ((Logger.create 66).run
        [Op.enqueue [7] 1, Op.dequeue [0] 1, Op.enqueue [8] 1, Op.dequeue [0] 1]).is_empty = true ↔
      ((Logger.create 66).run
        [Op.enqueue [7] 1, Op.dequeue [0] 1, Op.enqueue [8] 1, Op.dequeue [0] 1]).num_items = 0 :=
  is_empty_iff_no_items 66
    [Op.enqueue [7] 1, Op.dequeue [0] 1, Op.enqueue [8] 1, Op.dequeue [0] 1]
    (by decide) (by decide) (by decide) (by decide)

/-- C9: for every state reached on a store created with `total_size > 64` by
`enqueue` and `dequeue` calls with `len >= 0`, destroying the `Logger` and
constructing a new one on the same file, with any requested `len`, yields the
same `head_index`, `tail_index`, total size and `free_space`, hence the same
`num_items()`, and every following sequence of `dequeue` calls returns the
same values and delivers the same bytes as it would have before the
destruction. -/
theorem persistence_round_trip (total_size : Int) (ops : List Op) (len : Int)
    (reads : List (List Byte × Int)) (h1 : 64 < total_size) (h2 : total_size ≤ LONG_MAX)
    (h3 : ∀ op ∈ ops, 0 ≤ op.len) (h4 : ∀ r ∈ reads, 0 ≤ r.2) :
    memoryHeader (Logger.reopen ((Logger.create total_size).run ops).destroy len)
      = memoryHeader ((Logger.create total_size).run ops) ∧
    (Logger.reopen ((Logger.create total_size).run ops).destroy len).num_items
      = ((Logger.create total_size).run ops).num_items ∧
    dequeueAll (Logger.reopen ((Logger.create total_size).run ops).destroy len) reads
      = dequeueAll ((Logger.create total_size).run ops) reads := by
  simp only [LONG_MAX] at h2
  have hi := (run_inv ops (create_inv (le_of_lt h1) h2) h3).1
  obtain ⟨hinv, hsame⟩ := reopen_destroy hi len
  refine ⟨?_, ?_, dequeueAll_same reads hinv hi hsame h4⟩
  · simp only [memoryHeader, hsame.head_eq, hsame.tail_eq, hsame.size_eq, hsame.free_eq]
  · rw [num_items_eq hinv, num_items_eq hi, hsame.size_eq, hsame.free_eq]

theorem persistence_round_trip_witness :
    memoryHeader (Logger.reopen ((Logger.create 67).run
        [Op.enqueue [1, 2, 3] 3, Op.dequeue [0] 1]).destroy 500)
      = memoryHeader ((Logger.create 67).run [Op.enqueue [1, 2, 3] 3, Op.dequeue [0] 1]) ∧
    (Logger.reopen ((Logger.create 67).run
        [Op.enqueue [1, 2, 3] 3, Op.dequeue [0] 1]).destroy 500).num_items
      = ((Logger.create 67).run [Op.enqueue [1, 2, 3] 3, Op.dequeue [0] 1]).num_items ∧
    dequeueAll (Logger.reopen ((Logger.create 67).run
        [Op.enqueue [1, 2, 3] 3, Op.dequeue [0] 1]).destroy 500) [([0], 1), ([0], 1)]
      = dequeueAll ((Logger.create 67).run [Op.enqueue [1, 2, 3] 3, Op.dequeue [0] 1])
          [([0], 1), ([0], 1)] :=
  persistence_round_trip 67 [Op.enqueue [1, 2, 3] 3, Op.dequeue [0] 1] 500 [([0], 1), ([0], 1)]
    (by decide) (by decide) (by decide) (by decide)

/-- C10, the code at a failing input: on a store created with
`total_size = 65` and holding one byte, `dequeue(out, 1)` returns true and
leaves `tail_index == 65`, `free_space == 1` in memory, while the header on
the file still decodes to `tail_index == 64`, `free_space == 0`: `dequeue`
does not call `store()`. -/
theorem dequeue_leaves_header_stale :
    (((Logger.create 65).enqueue [7] 1).1.dequeue [0] 1).2.2 = true ∧
    memoryHeader (((Logger.create 65).enqueue [7] 1).1.dequeue [0] 1).1 = (65, 65, 65, 1) ∧
    mediaHeader (((Logger.create 65).enqueue [7] 1).1.dequeue [0] 1).1 = (65, 64, 65, 0) := by
  decide

/-- C11, counterexample: `Logger(name, 10)` on a name that does not exist
leaves an open handle and `free_space() == -54`: construction does not fail
and the free space is negative. -/
theorem undersized_store_is_created :
    (Logger.create 10).file_buffer.isOpen = true ∧ (Logger.create 10).free_space = -54 := by
  decide

/-- C11, amended: for every requested `total_size < 64` (with
`total_size - 64` a value of type `long`) on a name that does not exist yet,
construction does not fail when the file can be created: the handle is open,
`file_size == total_size`, `head_index == tail_index == 64` and
`free_space() == total_size - 64`, which is negative; the store then holds and
accepts nothing: `num_items() == 0`, every `enqueue` with `len >= 0` and every
`dequeue` with `len >= 1` returns false. -/
theorem undersized_store_accepts_nothing (total_size : Int) (h1 : total_size < 64)
    (h2 : LONG_MIN + 64 ≤ total_size) :
    (Logger.create total_size).file_buffer.isOpen = true ∧
    memoryHeader (Logger.create total_size) = (64, 64, total_size, total_size - 64) ∧
    (Logger.create total_size).free_space < 0 ∧
    (Logger.create total_size).num_items = 0 ∧
    (∀ (data : List Byte) (len : Int), 0 ≤ len →
      ((Logger.create total_size).enqueue data len).2 = false) ∧
    (∀ (data : List Byte) (len : Int), 1 ≤ len →
      ((Logger.create total_size).dequeue data len).2.2 = false) := by
  simp only [LONG_MIN] at h2
  obtain ⟨g1, g2, g3, g4, g5⟩ := create_fields total_size
  have e : wrapLong (total_size - 64) = total_size - 64 := wrapLong_eq (by omega) (by omega)
  rw [e] at g5
  have hn : (Logger.create total_size).num_items = 0 := by
    simp only [Logger.num_items, g4, g5, jump_header]
    have : total_size - (total_size - 64) = 64 := by omega
    rw [this]
    decide
  refine ⟨g1, ?_, ?_, hn, ?_, ?_⟩
  · simp only [memoryHeader, g2, g3, g4, g5]
  · simp only [Logger.free_space, g5]; omega
  · intro data len h0
    exact ((enqueue_false_iff (Logger.create total_size) data len).2
      (by simp only [Logger.free_space, g5]; omega))
  · intro data len h0
    rw [dequeue_reject _ data (by omega)]

theorem undersized_store_accepts_nothing_witness :
    (Logger.create 10).file_buffer.isOpen = true ∧
    memoryHeader (Logger.create 10) = (64, 64, 10, 10 - 64) ∧
    (Logger.create 10).free_space < 0 ∧
    (Logger.create 10).num_items = 0 ∧
    (∀ (data : List Byte) (len : Int), 0 ≤ len →
      ((Logger.create 10).enqueue data len).2 = false) ∧
    (∀ (data : List Byte) (len : Int), 1 ≤ len →
      ((Logger.create 10).dequeue data len).2.2 = false) :=
  undersized_store_accepts_nothing 10 (by decide) (by decide)

/-- C12, counterexample: a `Logger` reconstructed on an existing file that
holds `hello` keeps an open handle and gets the zero-filled header
`0, 0, 0, 0`; on a file that holds `12|ab|` it gets the partial header
`12, 0, 0, 0`. No decode failure is reported. -/
theorem malformed_header_is_accepted :
    (Logger.reopen [104, 101, 108, 108, 111] 100).file_buffer.isOpen = true ∧
    memoryHeader (Logger.reopen [104, 101, 108, 108, 111] 100) = (0, 0, 0, 0) ∧
    (Logger.reopen [49, 50, 124, 97, 98, 124] 100).file_buffer.isOpen = true ∧
    memoryHeader (Logger.reopen [49, 50, 124, 97, 98, 124] 100) = (12, 0, 0, 0) := by
  decide

/-- C12, amended: reconstructing the `Logger` on an existing file that can be
opened never reports a decode failure: `recall` takes for each field the
`atol` value of the bytes up to the next `'|'`. In particular, for every file
content without a decimal digit the handle stays open and the header is
zero-filled: `head_index == tail_index == file_size == free_space == 0`. -/
theorem digitless_header_is_zero_filled (content : List Byte) (len : Int)
    (h : ∀ b ∈ content, isDigit b = false) :
    (Logger.reopen content len).file_buffer.isOpen = true ∧
    memoryHeader (Logger.reopen content len) = (0, 0, 0, 0) := by
  have hre : Logger.reopen content len = Logger.recall
      { file_buffer := { content := content, pos := 0, isOpen := true },
        head_index := 0, tail_index := 0, file_size := 0, pos_free := 0 } := by
    simp [Logger.reopen, Logger.new, openFile]
  rw [hre]
  obtain ⟨g1, g2⟩ := recall_no_digit
    { file_buffer := { content := content, pos := 0, isOpen := true },
      head_index := 0, tail_index := 0, file_size := 0, pos_free := 0 } h
  exact ⟨g2, g1⟩

theorem digitless_header_is_zero_filled_witness :
    (Logger.reopen [104, 101, 108, 108, 111] 100).file_buffer.isOpen = true ∧
    memoryHeader (Logger.reopen [104, 101, 108, 108, 111] 100) = (0, 0, 0, 0) :=
  digitless_header_is_zero_filled [104, 101, 108, 108, 111] 100 (by decide)

/-- C13, the code at a failing input: on a store created with
`total_size = 66` whose `head_index` has reached 66 and whose two bytes were
read, `enqueue({3}, 1)` takes the wraparound branch; it returns true and the
byte lands at offset 64, but `head_index` is left at 64, not at
`64 + (1 - (66 - 66)) == 65`. -/
theorem wraparound_leaves_head_at_start :
    ((Logger.create 66).run
        [Op.enqueue [1, 2] 2, Op.dequeue [0] 1, Op.dequeue [0] 1]).head_index = 66 ∧
    (((Logger.create 66).run
        [Op.enqueue [1, 2] 2, Op.dequeue [0] 1, Op.dequeue [0] 1]).enqueue [3] 1).2 = true ∧
    (((Logger.create 66).run
        [Op.enqueue [1, 2] 2, Op.dequeue [0] 1, Op.dequeue [0] 1]).enqueue [3] 1).1.file_buffer.content[64]?
      = some 3 ∧
    (((Logger.create 66).run
        [Op.enqueue [1, 2] 2, Op.dequeue [0] 1, Op.dequeue [0] 1]).enqueue [3] 1).1.head_index
      = 64 := by
  decide

/-- C14, counterexample: a `Logger` reconstructed on a file that holds only
the 13 bytes `64|64|100|36|` has `head_index == 64`, `file_size == 100` and
`free_space() == 36`; `enqueue({1}, 1)` returns true and advances
`head_index` to 65, but the seek to offset 64 fails on the short file and the
file has no byte at offset 64 afterwards. -/
theorem enqueue_on_truncated_file_misses_head :
    memoryHeader (Logger.reopen [54, 52, 124, 54, 52, 124, 49, 48, 48, 124, 51, 54, 124] 0)
      = (64, 64, 100, 36) ∧
    ((Logger.reopen [54, 52, 124, 54, 52, 124, 49, 48, 48, 124, 51, 54, 124] 0).enqueue
      [1] 1).2 = true ∧
    ((Logger.reopen [54, 52, 124, 54, 52, 124, 49, 48, 48, 124, 51, 54, 124] 0).enqueue
      [1] 1).1.head_index = 65 ∧
    ((Logger.reopen [54, 52, 124, 54, 52, 124, 49, 48, 48, 124, 51, 54, 124] 0).enqueue
      [1] 1).1.file_buffer.content[64]? ≠ ([1] : List Byte)[0]? := by
  decide

/-- C14, amended: for every state with an open file of at least `total_size` bytes,
`64 <= head_index <= total_size`, and every `len` with
`0 <= len <= free_space()` and `len <= total_size - head_index` (the array
`data` holding `len` bytes), `enqueue(data, len)` returns true, the file bytes
`[old head_index, old head_index + len)` equal `data[0..len)`, every other
byte from offset 64 on is unchanged, `head_index` grows by exactly `len`,
`free_space` shrinks by exactly `len`, and `tail_index` and the total size are
unchanged. -/
theorem single_segment_enqueue (s : Logger) (data : List Byte) (len : Int)
    (ho : s.file_buffer.isOpen = true) (hr : InRange s)
    (hl : s.file_size ≤ (s.file_buffer.content.length : Int))
    (hh0 : 64 ≤ s.head_index) (hh1 : s.head_index ≤ s.file_size)
    (h0 : 0 ≤ len) (h1 : len ≤ s.free_space) (h2 : len ≤ s.file_size - s.head_index)
    (hd : len ≤ (data.length : Int)) :
    (s.enqueue data len).2 = true ∧
    (∀ i : Nat, (i : Int) < len →
      (s.enqueue data len).1.file_buffer.content[s.head_index.toNat + i]? = data[i]?) ∧
    (∀ i : Nat, 64 ≤ i → ((i : Int) < s.head_index ∨ s.head_index + len ≤ i) →
      (s.enqueue data len).1.file_buffer.content[i]? = s.file_buffer.content[i]?) ∧
    (s.enqueue data len).1.head_index = s.head_index + len ∧
    (s.enqueue data len).1.free_space = s.free_space - len ∧
    (s.enqueue data len).1.tail_index = s.tail_index ∧
    (s.enqueue data len).1.file_size = s.file_size := by
  simp only [Logger.free_space] at h1 ⊢
  rw [enqueue_single_gen ho hr (by omega) (by omega) data h0 h1 h2]
  obtain ⟨_, f2, f3⟩ := enqueueSingle_frame s data len (by omega) (by omega) h0 (by omega)
  have hrx : InRange (enqueueSingle s data len) := by
    obtain ⟨_, _, _, _, _, _, _, _⟩ := hr
    constructor <;> simp only [enqueueSingle] <;> omega
  refine ⟨rfl, ?_, ?_, rfl, rfl, rfl, rfl⟩
  · intro i hi
    show (enqueueSingle s data len).store.file_buffer.content[s.head_index.toNat + i]? = _
    rw [store_getElem?_gen _ hrx _ (by omega)]
    exact f3 i (by omega) (by omega)
  · intro i h64 hi
    show (enqueueSingle s data len).store.file_buffer.content[i]? = _
    rw [store_getElem?_gen _ hrx _ h64]
    exact f2 i hi

theorem single_segment_enqueue_witness :
    ((Logger.create 68).enqueue [1, 2, 3] 3).2 = true ∧
    (∀ i : Nat, (i : Int) < 3 →
      ((Logger.create 68).enqueue [1, 2, 3] 3).1.file_buffer.content[
        (Logger.create 68).head_index.toNat + i]? = ([1, 2, 3] : List Byte)[i]?) ∧
    (∀ i : Nat, 64 ≤ i →
      ((i : Int) < (Logger.create 68).head_index ∨ (Logger.create 68).head_index + 3 ≤ i) →
      ((Logger.create 68).enqueue [1, 2, 3] 3).1.file_buffer.content[i]?
        = (Logger.create 68).file_buffer.content[i]?) ∧
    ((Logger.create 68).enqueue [1, 2, 3] 3).1.head_index = (Logger.create 68).head_index + 3 ∧
    ((Logger.create 68).enqueue [1, 2, 3] 3).1.free_space = (Logger.create 68).free_space - 3 ∧
    ((Logger.create 68).enqueue [1, 2, 3] 3).1.tail_index = (Logger.create 68).tail_index ∧
    ((Logger.create 68).enqueue [1, 2, 3] 3).1.file_size = (Logger.create 68).file_size :=
  single_segment_enqueue (Logger.create 68) [1, 2, 3] 3 (by decide) (by constructor <;> decide)
    (by decide) (by decide) (by decide) (by decide) (by decide) (by decide) (by decide)

/-- C15: for every state with an open file of at least `total_size > 64`
bytes, `64 <= tail_index <= total_size`, and every `len` with
`1 <= len <= num_items()`, `dequeue(data, len)` returns true; it makes `len`
reads, the `i`-th of them (`i = 0..len-1`) at offset
`64 + ((tail_index - 64 + i) mod (total_size - 64))`, returning the file byte
at that offset; `free_space` grows by exactly `len`, the new `tail_index` is
`64 + ((old tail_index - 64 + len - 1) mod (total_size - 64)) + 1`, and
`head_index`, the total size and the file content are unchanged. -/
theorem successful_dequeue (s : Logger) (data : List Byte) (len : Int)
    (ho : s.file_buffer.isOpen = true) (hr : InRange s) (h1 : 64 < s.file_size)
    (h2 : 64 ≤ s.tail_index) (h3 : s.tail_index ≤ s.file_size)
    (h4 : s.file_size ≤ (s.file_buffer.content.length : Int))
    (h5 : 1 ≤ len) (h6 : len ≤ s.num_items) :
    (s.dequeue data len).2.2 = true ∧
    (s.dequeueTrace len).length = len.toNat ∧
    (∀ i : Nat, (i : Int) < len →
      ∃ b : Byte, s.file_buffer.content[ringOffset s i]? = some b ∧
        (s.dequeueTrace len)[i]? = some (ringOffset s i, (b.val : Int))) ∧
    (s.dequeue data len).1.free_space = s.free_space + len ∧
    (s.dequeue data len).1.tail_index
      = 64 + (s.tail_index - 64 + len - 1) % (s.file_size - 64) + 1 ∧
    (s.dequeue data len).1.head_index = s.head_index ∧
    (s.dequeue data len).1.file_size = s.file_size ∧
    (s.dequeue data len).1.file_buffer.content = s.file_buffer.content := by
  have hb := free_plus_len_le hr (le_of_lt h1) (by omega : 0 ≤ len) h6
  obtain ⟨e1, e2⟩ := dequeue_ok_gen ho hr (le_of_lt h1) (by omega) h3 h4 data
    (by omega : 0 ≤ len) h6
  have hri := afterSeek_readInv ho hr h1 h2 h3 h4
  obtain ⟨g1, g2, g3, g4, g5, g6, g7⟩ := dequeue_run_gen len.toNat (afterSeek s) data hri rfl
    (by simp only [afterSeek]; omega)
  have hro : ∀ i, ringOffset (afterSeek s) i = ringOffset s i := fun _ => rfl
  have hcs : (afterSeek s).file_buffer.content = s.file_buffer.content := rfl
  simp only [hro, hcs] at g7
  rw [e1, e2, g7]
  refine ⟨g1, by simp, ?_, ?_, ?_, g2, g3, g5⟩
  · intro i hi
    have hbd := ringOffset_bounds hri i
    have hfs : (afterSeek s).file_size = s.file_size := rfl
    rw [hro, hfs] at hbd
    have hlt : ringOffset s i < s.file_buffer.content.length := by omega
    refine ⟨s.file_buffer.content[ringOffset s i], List.getElem?_eq_getElem hlt, ?_⟩
    have hin : i < len.toNat := by omega
    simp [List.getElem?_map, List.getElem?_range hin, List.getD_eq_getElem?_getD,
      List.getElem?_eq_getElem hlt]
  · simp only [Logger.free_space]
    rw [g4]
    simp only [afterSeek]; omega
  · rw [g6, if_neg (by omega)]
    have hnn := Int.emod_nonneg (s.tail_index - 64 + ((len.toNat - 1 : Nat) : Int))
      (by omega : s.file_size - 64 ≠ 0)
    have hcast : ((len.toNat - 1 : Nat) : Int) = len - 1 := by omega
    have hsum : s.tail_index - 64 + len - 1 = s.tail_index - 64 + (len - 1) := by ring
    simp only [ringOffset, afterSeek] at hnn ⊢
    rw [hsum, ← hcast]
    omega

theorem successful_dequeue_witness :
    (1 : Int) ≤ ((Logger.create 66).run
        [Op.enqueue [1, 2] 2, Op.dequeue [0] 1, Op.dequeue [0] 1, Op.enqueue [3] 1]).num_items ∧
    ((Logger.create 66).run
        [Op.enqueue [1, 2] 2, Op.dequeue [0] 1, Op.dequeue [0] 1, Op.enqueue [3] 1]).tail_index
      = 66 ∧
    (((Logger.create 66).run
        [Op.enqueue [1, 2] 2, Op.dequeue [0] 1, Op.dequeue [0] 1, Op.enqueue [3] 1]).dequeue
          [0] 1).1.tail_index = 64 + (66 - 64 + 1 - 1) % (66 - 64) + 1 :=
  ⟨by decide, by decide,
    (successful_dequeue
      ((Logger.create 66).run
        [Op.enqueue [1, 2] 2, Op.dequeue [0] 1, Op.dequeue [0] 1, Op.enqueue [3] 1]) [0] 1
      (by decide) (by constructor <;> decide) (by decide) (by decide) (by decide) (by decide)
      (by decide) (by decide)).2.2.2.2.1⟩

/-- C16: for every header whose four fields are values of a 32-bit `long` and
every prior content of the (open) backing file, `recall()` run after `store()`
sets `head_index`, `tail_index`, `file_size` and `pos_free` to the values
`store()` encoded, in that order, whatever the four members hold and wherever
the cursor stands when `recall()` starts: the values are decoded from the
file. -/
theorem header_codec_round_trip (s : Logger) (a b c d : Int) (p : Nat)
    (ho : s.file_buffer.isOpen = true) (hr : InRange s) :
    memoryHeader (Logger.recall
      { file_buffer := { content := s.store.file_buffer.content, pos := p, isOpen := true },
        head_index := a, tail_index := b, file_size := c, pos_free := d })
      = memoryHeader s := by
  have hcont : s.store.file_buffer.content
      = fmtHeader s.head_index s.tail_index s.file_size s.pos_free
        ++ s.file_buffer.content.drop
            (fmtHeader s.head_index s.tail_index s.file_size s.pos_free).length := by
    simp only [store_ok s ho, writeAt, List.take_zero, List.nil_append, Nat.zero_add]
  obtain ⟨g1, g2, g3, g4, _, _⟩ := recall_header
    { file_buffer := { content := s.store.file_buffer.content, pos := p, isOpen := true },
      head_index := a, tail_index := b, file_size := c, pos_free := d } _ rfl hcont
    (by simpa [LONG_MIN] using hr.head_lo) (by simpa [LONG_MAX] using hr.head_hi)
    (by simpa [LONG_MIN] using hr.tail_lo) (by simpa [LONG_MAX] using hr.tail_hi)
    (by simpa [LONG_MIN] using hr.size_lo) (by simpa [LONG_MAX] using hr.size_hi)
    (by simpa [LONG_MIN] using hr.free_lo) (by simpa [LONG_MAX] using hr.free_hi)
  simp only [memoryHeader, g1, g2, g3, g4]

theorem header_codec_round_trip_witness :
    memoryHeader (Logger.recall
      { file_buffer :=
          { content := (Logger.store
              { file_buffer :=
                  { content :=
                      [45, 49, 50, 51, 52, 53, 124, 55, 124, 56, 124, 57, 124, 13, 10, 1, 2],
                    pos := 3, isOpen := true },
                head_index := 70, tail_index := -3, file_size := 100,
                pos_free := 0 }).file_buffer.content,
            pos := 9, isOpen := true },
        head_index := 1, tail_index := 2, file_size := 3, pos_free := 4 })
      = memoryHeader
      { file_buffer :=
          { content := [45, 49, 50, 51, 52, 53, 124, 55, 124, 56, 124, 57, 124, 13, 10, 1, 2],
            pos := 3, isOpen := true },
        head_index := 70, tail_index := -3, file_size := 100, pos_free := 0 } :=
  header_codec_round_trip
    { file_buffer :=
        { content := [45, 49, 50, 51, 52, 53, 124, 55, 124, 56, 124, 57, 124, 13, 10, 1, 2],
          pos := 3, isOpen := true },
      head_index := 70, tail_index := -3, file_size := 100, pos_free := 0 }
    1 2 3 4 9 rfl (by constructor <;> decide)

/-- C17: for every header whose four fields are values of a 32-bit `long`,
negative ones included, the record `store()` writes is at most
`jump_header() == 64` bytes long, and `store()` leaves every byte of the file
from offset 64 on as it was. -/
theorem header_fits_reserved_region (s : Logger) (hr : InRange s) :
    ((fmtHeader s.head_index s.tail_index s.file_size s.pos_free).length : Int) ≤ jump_header ∧
    jump_header = 64 ∧
    ∀ i : Nat, 64 ≤ i → s.store.file_buffer.content[i]? = s.file_buffer.content[i]? := by
  have hh := header_length_le s hr
  refine ⟨by simp only [jump_header]; omega, rfl, ?_⟩
  intro i hi
  by_cases ho : s.file_buffer.isOpen = true
  · rw [store_ok s ho]
    simp only
    rw [writeAt_getElem? _ _ _ _ (Nat.zero_le _), if_neg (by omega), if_neg (by omega)]
  · simp [Logger.store, File.seek, File.printText, File.write, ho]

theorem header_fits_reserved_region_witness :
    ((fmtHeader (-2147483648) (-2147483648) (-2147483648) (-2147483648)).length : Int)
      ≤ jump_header ∧
    jump_header = 64 ∧
    ∀ i : Nat, 64 ≤ i →
      (Logger.store
        { file_buffer := { content := [], pos := 0, isOpen := true },
          head_index := -2147483648, tail_index := -2147483648, file_size := -2147483648,
          pos_free := -2147483648 }).file_buffer.content[i]?
      = ([] : List Byte)[i]? :=
  header_fits_reserved_region
    { file_buffer := { content := [], pos := 0, isOpen := true },
      head_index := -2147483648, tail_index := -2147483648, file_size := -2147483648,
      pos_free := -2147483648 } (by constructor <;> decide)

/-- C18, counterexample: a `Logger` reconstructed on a file that holds only
the 18 bytes `1064|64|1064|1000|` has `head_index == file_size == 1064` and
`free_space() == 1000`; `enqueue({1}, 1)` returns true, but its seeks fail on
the short file and the payload byte lands at offset 18, inside `[0, 64)`,
making the file one byte longer. -/
theorem payload_lands_in_header_of_truncated_file :
    memoryHeader (Logger.reopen
      [49, 48, 54, 52, 124, 54, 52, 124, 49, 48, 54, 52, 124, 49, 48, 48, 48, 124] 0)
      = (1064, 64, 1064, 1000) ∧
    ((Logger.reopen
      [49, 48, 54, 52, 124, 54, 52, 124, 49, 48, 54, 52, 124, 49, 48, 48, 48, 124] 0).enqueue
      [1] 1).2 = true ∧
    ((Logger.reopen
      [49, 48, 54, 52, 124, 54, 52, 124, 49, 48, 54, 52, 124, 49, 48, 48, 48, 124] 0).enqueue
      [1] 1).1.file_buffer.content[18]? = some 1 ∧
    ((Logger.reopen
      [49, 48, 54, 52, 124, 54, 52, 124, 49, 48, 54, 52, 124, 49, 48, 48, 48, 124] 0).enqueue
      [1] 1).1.file_buffer.content.length = 18 + 1 := by
  decide

/-- C18, amended: for every state with an open file of at least `total_size` bytes,
`64 <= head_index <= total_size`, `0 <= free_space <= total_size - 64`, and
every `len` with `0 <= len <= free_space`, `enqueue(data, len)` returns true
and its result is `store()` applied to a state whose file has the length of
the original file and differs from it only at offsets in `[64, total_size)`:
the payload writes, in the single-segment and in the wraparound branch, leave
the header region `[0, 64)` and everything from `total_size` on untouched and
do not extend the file. -/
theorem payload_stays_in_data_region (s : Logger) (data : List Byte) (len : Int)
    (ho : s.file_buffer.isOpen = true) (hr : InRange s)
    (hl : s.file_size ≤ (s.file_buffer.content.length : Int))
    (hh0 : 64 ≤ s.head_index) (hh1 : s.head_index ≤ s.file_size)
    (_hf0 : 0 ≤ s.free_space) (hf1 : s.free_space ≤ s.file_size - 64)
    (h0 : 0 ≤ len) (h1 : len ≤ s.free_space) :
    (s.enqueue data len).2 = true ∧
    ∃ p : Logger, (s.enqueue data len).1 = p.store ∧
      p.file_buffer.content.length = s.file_buffer.content.length ∧
      ∀ i : Nat, (i < 64 ∨ s.file_size ≤ (i : Int)) →
        p.file_buffer.content[i]? = s.file_buffer.content[i]? := by
  simp only [Logger.free_space] at h1 hf1
  by_cases h2 : len ≤ s.file_size - s.head_index
  · rw [enqueue_single_gen ho hr (by omega) (by omega) data h0 h1 h2]
    obtain ⟨f1, f2, _⟩ := enqueueSingle_frame s data len (by omega) (by omega) h0
      (by omega)
    exact ⟨rfl, enqueueSingle s data len, rfl, f1, fun i hi => f2 i (by omega)⟩
  · rw [enqueue_wrap_gen ho hr hh0 hh1 hl data h1 (by omega)]
    obtain ⟨f1, f2⟩ := enqueueWrapped_frame s data len hh0 hh1 hl (by omega)
    exact ⟨rfl, enqueueWrapped s data len, rfl, f1, f2⟩

theorem payload_stays_in_data_region_witness :
    (((Logger.create 66).run
        [Op.enqueue [1, 2] 2, Op.dequeue [0] 1, Op.dequeue [0] 1]).enqueue [3] 1).2 = true ∧
    ∃ p : Logger,
      (((Logger.create 66).run
        [Op.enqueue [1, 2] 2, Op.dequeue [0] 1, Op.dequeue [0] 1]).enqueue [3] 1).1 = p.store ∧
      p.file_buffer.content.length
        = ((Logger.create 66).run
            [Op.enqueue [1, 2] 2, Op.dequeue [0] 1, Op.dequeue [0] 1]).file_buffer.content.length ∧
      ∀ i : Nat,
        (i < 64 ∨ ((Logger.create 66).run
            [Op.enqueue [1, 2] 2, Op.dequeue [0] 1, Op.dequeue [0] 1]).file_size ≤ (i : Int)) →
        p.file_buffer.content[i]?
          = ((Logger.create 66).run
              [Op.enqueue [1, 2] 2, Op.dequeue [0] 1, Op.dequeue [0] 1]).file_buffer.content[i]? :=
  payload_stays_in_data_region
    ((Logger.create 66).run [Op.enqueue [1, 2] 2, Op.dequeue [0] 1, Op.dequeue [0] 1]) [3] 1
    (by decide) (by constructor <;> decide) (by decide) (by decide) (by decide) (by decide)
    (by decide) (by decide) (by decide)

/-- C19: for every state with an open file of at least `total_size > 64`
bytes, `64 <= tail_index <= total_size`, and every `len` with
`0 <= len <= num_items()`, every `read()` made by `dequeue(data, len)` happens
at a cursor position in `[64, total_size)` and does not return `-1`, and
`dequeue` returns true: the read-failure branch is not taken. -/
theorem read_failure_unreachable (s : Logger) (data : List Byte) (len : Int)
    (ho : s.file_buffer.isOpen = true) (hr : InRange s) (h1 : 64 < s.file_size)
    (h2 : 64 ≤ s.tail_index) (h3 : s.tail_index ≤ s.file_size)
    (h4 : s.file_size ≤ (s.file_buffer.content.length : Int))
    (h5 : 0 ≤ len) (h6 : len ≤ s.num_items) :
    (s.dequeue data len).2.2 = true ∧
    (s.dequeueTrace len).length = len.toNat ∧
    ∀ pr ∈ s.dequeueTrace len, 64 ≤ pr.1 ∧ (pr.1 : Int) < s.file_size ∧ pr.2 ≠ -1 := by
  have hb := free_plus_len_le hr (le_of_lt h1) h5 h6
  obtain ⟨e1, e2⟩ := dequeue_ok_gen ho hr (le_of_lt h1) (by omega) h3 h4 data h5 h6
  have hri := afterSeek_readInv ho hr h1 h2 h3 h4
  obtain ⟨g1, _, _, _, _, _, g7⟩ := dequeue_run_gen len.toNat (afterSeek s) data hri rfl
    (by simp only [afterSeek]; omega)
  rw [e1, e2, g7]
  refine ⟨g1, by simp, ?_⟩
  intro pr hpr
  simp only [List.mem_map, List.mem_range] at hpr
  obtain ⟨i, _, rfl⟩ := hpr
  have hbd := ringOffset_bounds hri i
  have hfs : (afterSeek s).file_size = s.file_size := rfl
  rw [hfs] at hbd
  refine ⟨hbd.1, hbd.2, ?_⟩
  simp only
  omega

theorem read_failure_unreachable_witness :
    (((Logger.create 68).enqueue [1, 2, 3] 3).1.dequeue [0, 0] 3).2.2 = true ∧
    (((Logger.create 68).enqueue [1, 2, 3] 3).1.dequeueTrace 3).length = (3 : Int).toNat ∧
    ∀ pr ∈ ((Logger.create 68).enqueue [1, 2, 3] 3).1.dequeueTrace 3,
      64 ≤ pr.1 ∧ (pr.1 : Int) < ((Logger.create 68).enqueue [1, 2, 3] 3).1.file_size ∧
      pr.2 ≠ -1 :=
  read_failure_unreachable ((Logger.create 68).enqueue [1, 2, 3] 3).1 [0, 0] 3
    (by decide) (by constructor <;> decide) (by decide) (by decide) (by decide) (by decide)
    (by decide) (by decide)

end SpiffsLogger
